import Mathlib

/-!
# Task tracker: the store, its commands, and what the specification says of them

A shallow embedding of `tracker.go`.  One process invocation loads `db.json`
into a `tasks` value, runs the handler selected by `os.Args[1]`, and the
handler rewrites the whole file when it changed something.

Conventions of the embedding:

* Go's `int` is a 64-bit integer, here an `Int` within the range from `minInt`
  to `maxInt`.  The only arithmetic in the program is `t.NextID++`, which wraps
  from `maxInt` to `minInt`: it is `wrapInt (t.NextID + 1)`.
* `map[int]*task` is a `Finmap` from keys to task values: every key holds a task
  object of its own (the decoder and `add` allocate one per key), so writing
  through the pointer changes that key and no other.  A nil map and nil task
  pointers are outside the type.
* `os.OpenFile` and the writes to `db.json` succeed; the branches of the
  handlers that only report such a failure are not represented.
* Library functions whose exact result is not the program's own business are
  kept abstract: `strings.ToLower` is a parameter `lower`, `time.Now()` a
  parameter `now`, the text of a task line is the task itself, and the bytes of
  the JSON file are the document they spell.
-/

namespace Tracker

/-- An instant, as `time.Time`; `Time.zero` is the zero value `time.Time{}`. -/
structure Time where
  nsec : Int
deriving DecidableEq, Repr

/-- The zero value `time.Time{}`. -/
def Time.zero : Time := ⟨0⟩

/-- The struct `task`. -/
structure task where
  ID : Int
  Description : String
  Status : String
  CreatedAt : Time
  UpdatedAt : Time
deriving DecidableEq, Repr

/-- The Go type `map[int]*task`. -/
abbrev TaskMap := Finmap (fun _ : Int => task)

/-- The struct `tasks`: the store. -/
structure tasks where
  NextID : Int
  Db : TaskMap
deriving DecidableEq

/-- What `db.json` holds.  `empty` is a file of zero bytes; `blank` is a file of
one or more bytes, all of them white space; `null` is the JSON value `null`;
`document n es` is the JSON object with `next_id` equal to `n` and a `tasks`
object listing the entries `es` in file order; `malformed text n es` is any
content on which the decoder returns an error other than `io.EOF`, having by
then stored the counter `n` (if it got that far) and the entries `es`: text that
is not JSON, a value of another shape, a number outside the range of `int`.  A
document with `null` for the map or for one of its entries decodes to a nil map
or a nil pointer, which the type `tasks` below does not have: such documents are
not among these values. -/
inductive FileContent
  | empty
  | blank
  | null
  | document (next_id : Int) (entries : List (Int × task))
  | malformed (text : String) (next_id : Option Int) (entries : List (Int × task))
deriving DecidableEq

/-- An error value that the program only prints. -/
inductive Error
  | atoi (arg : String)
  | decode (text : String)
deriving DecidableEq

/-- One write to a standard stream.  `stdoutTask x` is the line
`x.String()` on standard output; `stderrError e` is the text of the library
error `e` on standard error. -/
inductive Output
  | stdout (text : String)
  | stderr (text : String)
  | stdoutTask (x : task)
  | stderrError (e : Error)
deriving DecidableEq

/-- The state a handler leaves behind: the store in memory, the content of
`db.json`, what was written to the standard streams (oldest first), how many
times `encode` ran, and the runtime panic that ended the run, if any. -/
structure Run where
  t : tasks
  file : FileContent
  out : List Output
  encodes : Nat
  panic : Option String
deriving DecidableEq

/-- A handler that returns after writing `out`, the store and the file untouched. -/
def Run.quit (t : tasks) (file : FileContent) (out : List Output) : Run :=
  { t := t, file := file, out := out, encodes := 0, panic := none }

/-- The runtime panic of an indexing expression `os.Args[i]` out of range. -/
def Run.outOfRange (t : tasks) (file : FileContent) : Run :=
  { t := t, file := file, out := [], encodes := 0, panic := some "index out of range" }

/-- The function `strconv.Atoi` on a 64-bit platform: an optional sign, then
one or more decimal digits, the value within the range of `int`; `none` stands
for its `*NumError`. -/
def Atoi (s : String) : Option Int :=
  let cs := s.toList
  let neg := cs.head? = some '-'
  let ds := if cs.head? = some '-' ∨ cs.head? = some '+' then cs.tail else cs
  if ds = [] ∨ ¬ (ds.all Char.isDigit = true) then none
  else
    let n : Nat := ds.foldl (fun acc c => 10 * acc + (c.toNat - 48)) 0
    let v : Int := if neg then -(n : Int) else (n : Int)
    if v < -(2 : Int) ^ 63 ∨ (2 : Int) ^ 63 - 1 < v then none else some v

/-- The function `sort.Ints` on keys collected in whatever order (a multiset):
the result does not depend on the order they were collected in. -/
def sortInts (keys : Multiset Int) : List Int :=
  Quot.liftOn keys (List.insertionSort (· ≤ ·)) fun a b h =>
    List.eq_of_perm_of_sorted
      ((List.perm_insertionSort _ a).trans (h.trans (List.perm_insertionSort _ b).symm))
      (List.sorted_insertionSort _ a) (List.sorted_insertionSort _ b)

/-- The order in which `encoding/json` writes the keys of a map: by the decimal
text of the key, compared character by character. -/
def keyTextLE (a b : Int) : Prop := (toString a).toList ≤ (toString b).toList

instance : DecidableRel keyTextLE := fun a b => by unfold keyTextLE; infer_instance

/-- The entries `json.Encoder` writes for a map, in its order. -/
def encodeEntries (db : TaskMap) : List (Int × task) :=
  ((sortInts db.keys.val).insertionSort keyTextLE).filterMap
    fun k => (db.lookup k).map fun x => (k, x)

/-- The method `encode`: truncate `db.json` and write the store as one JSON
document.  The result is the new content of the file. -/
def tasks.encode (t : tasks) : FileContent :=
  .document t.NextID (encodeEntries t.Db)

/-- What `json.Decoder.Decode` returns, and the store it leaves behind the
pointer it was given: `EOF` leaves it as it was. -/
inductive DecodeResult
  | ok (t : tasks)
  | EOF
  | error (e : Error) (t : tasks)
deriving DecidableEq

/-- The call `json.NewDecoder(file).Decode(t)`, which reads the first JSON value
of the file.  The decoder skips white space and reports `io.EOF` when the input
ends before a value starts, so for a file of zero bytes and for a blank one.
The value `null` is accepted and stores nothing.  For an object the counter is overwritten and the entries are stored
into the existing map in file order, a later entry replacing an earlier one
under the same key.  When the decoder returns an error, what it had stored
before stays stored. -/
def Decode (file : FileContent) (t : tasks) : DecodeResult :=
  match file with
  | .empty => .EOF
  | .blank => .EOF
  | .null => .ok t
  | .document n es => .ok { NextID := n, Db := es.foldl (fun m e => m.insert e.1 e.2) t.Db }
  | .malformed text n es =>
    .error (.decode text)
      { NextID := n.getD t.NextID, Db := es.foldl (fun m e => m.insert e.1 e.2) t.Db }

/-- The method `initializeTasks`, on a disk where `db.json` is absent (`none`)
or has some content.  `O_CREATE` leaves an absent file empty.  Returns the error
(if any), the store and the content of the file. -/
def tasks.initializeTasks (t : tasks) (disk : Option FileContent) :
    Option Error × tasks × FileContent :=
  let file := disk.getD .empty
  let t1 : tasks := { t with Db := ∅ }
  match Decode file t1 with
  | .ok t2 => (none, t2, file)
  | .EOF => (none, t1, file)
  | .error e t2 => (some e, t2, file)

/-- The largest value of Go's `int` on a 64-bit platform. -/
def maxInt : Int := 9223372036854775807

/-- The smallest value of Go's `int` on a 64-bit platform. -/
def minInt : Int := -9223372036854775808

/-- The result of an `int` operation whose exact value is `n`: the value in the
range of `int` that differs from `n` by a multiple of `2 ^ 64`. -/
def wrapInt (n : Int) : Int :=
  (n + 9223372036854775808) % 18446744073709551616 - 9223372036854775808

/-- The method `add`.  The statement `t.NextID++` is `int` arithmetic. -/
def tasks.add (t : tasks) (args : List String) (now : Time) (file : FileContent) : Run :=
  if args.length ≠ 3 then
    Run.quit t file [.stdout "Error: add needs a description, no less no more.\n"]
  else
    let id := wrapInt (t.NextID + 1)
    match args[2]? with
    | none => Run.outOfRange { t with NextID := id } file
    | some description =>
      let newTask : task :=
        { ID := id, Description := description, Status := "todo",
          CreatedAt := now, UpdatedAt := Time.zero }
      let t1 : tasks := { NextID := id, Db := t.Db.insert id newTask }
      { t := t1, file := t1.encode, encodes := 1, panic := none,
        out := [.stdout ("Task added, and its identity: " ++ toString id ++ "\n")] }

/-- The method `update`. -/
def tasks.update (t : tasks) (args : List String) (now : Time) (file : FileContent) : Run :=
  if args.length ≠ 4 then
    Run.quit t file [.stdout "Error: update requires task ID and description\n"]
  else
    match args[2]? with
    | none => Run.outOfRange t file
    | some a =>
      match Atoi a with
      | none => Run.quit t file [.stderrError (.atoi a)]
      | some id =>
        match t.Db.lookup id with
        | none =>
          Run.quit t file
            [.stderr ("Task with id: " ++ toString id ++ " does not exist\n")]
        | some x =>
          match args[3]? with
          | none => Run.outOfRange t file
          | some description =>
            let x1 : task := { x with Description := description, UpdatedAt := now }
            let t1 : tasks := { t with Db := t.Db.insert id x1 }
            { t := t1, file := t1.encode, encodes := 1, panic := none,
              out := [.stdout ("Task " ++ toString id ++ " updated\n")] }

/-- The method `delete`. -/
def tasks.delete (t : tasks) (args : List String) (file : FileContent) : Run :=
  if args.length ≠ 3 then
    Run.quit t file [.stdout "Error: delete requires task ID\n"]
  else
    match args[2]? with
    | none => Run.outOfRange t file
    | some a =>
      match Atoi a with
      | none => Run.quit t file [.stderrError (.atoi a)]
      | some id =>
        let t1 : tasks := { t with Db := t.Db.erase id }
        { t := t1, file := t1.encode, encodes := 1, panic := none,
          out := [.stdout ("Task " ++ toString id ++ " deleted\n")] }

/-- The method `updateStatus`. -/
def tasks.updateStatus (lower : String → String) (t : tasks) (args : List String)
    (now : Time) (file : FileContent) : Run :=
  if args.length ≠ 3 then
    Run.quit t file [.stdout "Error: updating task status requires the task's ID\n"]
  else
    match args[2]? with
    | none => Run.outOfRange t file
    | some a =>
      match Atoi a with
      | none => Run.quit t file [.stderrError (.atoi a)]
      | some id =>
        match t.Db.lookup id with
        | none =>
          Run.quit t file
            [.stderr ("Task with id: " ++ toString id ++ " does not exist\n")]
        | some x =>
          match args[1]? with
          | none => Run.outOfRange t file
          | some cmd =>
            let status := if lower cmd = "mark-done" then "done" else "in-progress"
            let x1 : task := { x with Status := status, UpdatedAt := now }
            let t1 : tasks := { t with Db := t.Db.insert id x1 }
            { t := t1, file := t1.encode, encodes := 1, panic := none,
              out := [.stdout ("Task " ++ toString id ++ " status is updated\n")] }

/-- The tasks of the store in the order `list` visits them: the keys of the map
are collected (`range` over a map visits every key once, in no particular
order) and sorted by `sort.Ints`, then each key is looked up. -/
def tasks.ordered (t : tasks) : List task :=
  (sortInts t.Db.keys.val).filterMap fun k => t.Db.lookup k

/-- The method `list`. -/
def tasks.list (t : tasks) (args : List String) (file : FileContent) : Run :=
  if args.length > 3 then
    Run.quit t file [.stdout "Error: list takes one or no argument\n"]
  else if args.length > 2 then
    match args[2]? with
    | none => Run.outOfRange t file
    | some status =>
      Run.quit t file
        ((t.ordered.filter fun x => status = x.Status).map Output.stdoutTask)
  else
    Run.quit t file (t.ordered.map Output.stdoutTask)

/-- The `switch` of `Track`: the handler chosen by the lowered `os.Args[1]`. -/
def dispatch (lower : String → String) (t : tasks) (args : List String) (now : Time)
    (file : FileContent) : Run :=
  match args[1]? with
  | none => Run.outOfRange t file
  | some cmd =>
    if lower cmd = "add" then t.add args now file
    else if lower cmd = "update" then t.update args now file
    else if lower cmd = "delete" then t.delete args file
    else if lower cmd = "mark-in-progress" ∨ lower cmd = "mark-done" then
      t.updateStatus lower args now file
    else if lower cmd = "list" then t.list args file
    else Run.quit t file [.stdout ("Unrecognized program argument " ++ cmd ++ "\n")]

/-- The function `Track`: one invocation of the program with argument vector
`args` at time `now`, on a disk where `db.json` is absent (`none`) or has some
content. -/
def Track (lower : String → String) (args : List String) (now : Time)
    (disk : Option FileContent) : Run :=
  match tasks.initializeTasks { NextID := 0, Db := ∅ } disk with
  | (some e, t, file) => Run.quit t file [.stderrError e]
  | (none, t, file) => dispatch lower t args now file

/-! ## Notions the statements below are phrased in -/

/-- The disk loads as the store `t`: `initializeTasks`, as `Track` calls it,
returns no error and leaves `t` in memory. -/
def Loads (disk : Option FileContent) (t : tasks) : Prop :=
  tasks.initializeTasks { NextID := 0, Db := ∅ } disk = (none, t, disk.getD .empty)

instance (disk : Option FileContent) (t : tasks) : Decidable (Loads disk t) := by
  unfold Loads; infer_instance

/-- The data-model invariant of the store: every key of the map is the `ID` of
the task stored under it. -/
def tasks.KeysAreIDs (t : tasks) : Prop :=
  ∀ k x, t.Db.lookup k = some x → x.ID = k

/-- Successive invocations of the program, each a pair of an argument vector
and the time it runs at, each on the disk the previous one left behind. -/
def session (lower : String → String) :
    Option FileContent → List (List String × Time) → List Run
  | _, [] => []
  | disk, (args, now) :: rest =>
    Track lower args now disk :: session lower (some (Track lower args now disk).file) rest

/-- The disk after a session. -/
def sessionDisk (lower : String → String) :
    Option FileContent → List (List String × Time) → Option FileContent
  | disk, [] => disk
  | disk, (args, now) :: rest =>
    sessionDisk lower (some (Track lower args now disk).file) rest

/-- The command line of an `add` that goes through: the program name, a word
that lowers to `add`, and one description. -/
def isAddLine (lower : String → String) (args : List String) : Bool :=
  decide (args.length = 3 ∧ args[1]?.map lower = some "add")

/-- The invocation with the command line `args` that ended as `r` gave its new
task the ID `i`: it printed `i` as the identity of the task added, and the
store it left holds, under the key `i`, a task whose `ID` field is `i` and
whose description is the one on the command line. -/
def AssignedBy (args : List String) (r : Run) (i : Int) : Prop :=
  r.out = [.stdout ("Task added, and its identity: " ++ toString i ++ "\n")] ∧
  (r.t.Db.lookup i).map task.ID = some i ∧
  (r.t.Db.lookup i).map task.Description = args[2]?

instance (args : List String) (r : Run) (i : Int) : Decidable (AssignedBy args r i) := by
  unfold AssignedBy; infer_instance

/-- The invocations of a session that were `add` lines, each with the run it
ended as, oldest first. -/
def addRuns (lower : String → String) (disk : Option FileContent)
    (invs : List (List String × Time)) : List ((List String × Time) × Run) :=
  (invs.zip (session lower disk invs)).filter fun p => isAddLine lower p.1.1

/-- A store of one task, used to instantiate the statements. -/
def oneTask : tasks :=
  { NextID := 1,
    Db := (∅ : TaskMap).insert 1
      { ID := 1, Description := "buy milk", Status := "todo",
        CreatedAt := ⟨100⟩, UpdatedAt := Time.zero } }

/-- The list `l` spells the map of `t`: it holds the tasks of the store in
strictly ascending order of ID, each under the key equal to its ID, and no ID
exceeds the counter. -/
def Spells (t : tasks) (l : List task) : Prop :=
  (l.map task.ID).Sorted (· < ·) ∧
  (∀ k x, t.Db.lookup k = some x ↔ x ∈ l ∧ x.ID = k) ∧
  ∀ x ∈ l, x.ID ≤ t.NextID

/-- The store `t1` is `t` after the tasks under the keys in `D` were marked
done: the same keys; under a key of `D` the task of `t` with status `done` (and
some updated time); under any other key the task of `t`. -/
def MarkedDone (t t1 : tasks) (D : Finset Int) : Prop :=
  (∀ k, k ∈ t1.Db ↔ k ∈ t.Db) ∧
  (∀ k ∈ D, ∃ x0 x, t.Db.lookup k = some x0 ∧ t1.Db.lookup k = some x ∧
    x.Status = "done" ∧ x.ID = x0.ID ∧ x.Description = x0.Description ∧
    x.CreatedAt = x0.CreatedAt) ∧
  (∀ k, k ∉ D → t1.Db.lookup k = t.Db.lookup k)

/-- How the task under a key after an invocation relates to the store before
it: it is the task that was under that key, with the same ID and with the same
status or one of `in-progress` and `done`; or it is the task a successful `add`
just created, under the new counter value (the old one incremented in `int`
arithmetic), with that ID and status `todo`. -/
def Descends (t : tasks) (t1 : tasks) (k : Int) (x1 : task) : Prop :=
  (∃ x, t.Db.lookup k = some x ∧ x1.ID = x.ID ∧
    (x1.Status = x.Status ∨ x1.Status = "in-progress" ∨ x1.Status = "done")) ∨
  (k = wrapInt (t.NextID + 1) ∧ t1.NextID = wrapInt (t.NextID + 1) ∧ x1.ID = k ∧
    x1.Status = "todo")

/-- A store reachable from the empty store: what `db.json` loads as after some
sequence of invocations that started on a disk loading as the empty store. -/
def Reachable (lower : String → String) (t : tasks) : Prop :=
  ∃ (disk : Option FileContent) (invs : List (List String × Time)),
    Loads disk { NextID := 0, Db := ∅ } ∧ Loads (sessionDisk lower disk invs) t

/-- A command line that is in error on the store `t`: after the program name
and a command word, an ID argument that is not a valid integer (for `update`,
`delete`, `mark-in-progress`, `mark-done`), an ID that is no key of the store
(for `update` and the mark commands), a wrong number of arguments for the
command, or a command word that is none of the six. -/
def ErrorLine (lower : String → String) (t : tasks) (args : List String) : Prop :=
  ∃ (prog cmd : String) (rest : List String), args = prog :: cmd :: rest ∧
    (((lower cmd = "update" ∨ lower cmd = "delete" ∨ lower cmd = "mark-in-progress" ∨
          lower cmd = "mark-done") ∧
        ∃ a more, rest = a :: more ∧ Atoi a = none) ∨
      ((lower cmd = "update" ∨ lower cmd = "mark-in-progress" ∨ lower cmd = "mark-done") ∧
        ∃ a more id, rest = a :: more ∧ Atoi a = some id ∧ id ∉ t.Db) ∨
      (lower cmd = "add" ∧ rest.length ≠ 1) ∨
      (lower cmd = "update" ∧ rest.length ≠ 2) ∨
      (lower cmd = "delete" ∧ rest.length ≠ 1) ∨
      ((lower cmd = "mark-in-progress" ∨ lower cmd = "mark-done") ∧ rest.length ≠ 1) ∨
      (lower cmd = "list" ∧ rest.length > 1) ∨
      (lower cmd ≠ "add" ∧ lower cmd ≠ "update" ∧ lower cmd ≠ "delete" ∧
        lower cmd ≠ "mark-in-progress" ∧ lower cmd ≠ "mark-done" ∧ lower cmd ≠ "list"))

/-- The task under an old key of `a` (one not above the counter of `a`) in the
later store `b`, if there is one, comes from the task `a` held under that key,
with the same status or one of `in-progress` and `done`; and the counter of `b`
is not below that of `a`. -/
def Succeeds (a b : tasks) : Prop :=
  a.NextID ≤ b.NextID ∧
  ∀ k, k ≤ a.NextID → ∀ x1, b.Db.lookup k = some x1 →
    ∃ x, a.Db.lookup k = some x ∧
      (x1.Status = x.Status ∨ x1.Status = "in-progress" ∨ x1.Status = "done")

/-- No key of the store exceeds its counter. -/
def tasks.KeysWithinCounter (t : tasks) : Prop :=
  ∀ k, k ∈ t.Db → k ≤ t.NextID

/-- A store of three tasks, each under its ID, two of them done. -/
def threeTasks : tasks :=
  { NextID := 3,
    Db := (((∅ : TaskMap).insert 1
      { ID := 1, Description := "buy milk", Status := "done",
        CreatedAt := ⟨100⟩, UpdatedAt := ⟨150⟩ }).insert 2
      { ID := 2, Description := "walk dog", Status := "todo",
        CreatedAt := ⟨110⟩, UpdatedAt := Time.zero }).insert 3
      { ID := 3, Description := "call mom", Status := "done",
        CreatedAt := ⟨120⟩, UpdatedAt := ⟨160⟩ } }

/-- A store of three tasks, each under its ID, all of them to do. -/
def threeTodo : tasks :=
  { NextID := 3,
    Db := (((∅ : TaskMap).insert 1
      { ID := 1, Description := "buy milk", Status := "todo",
        CreatedAt := ⟨100⟩, UpdatedAt := Time.zero }).insert 2
      { ID := 2, Description := "walk dog", Status := "todo",
        CreatedAt := ⟨110⟩, UpdatedAt := Time.zero }).insert 3
      { ID := 3, Description := "call mom", Status := "todo",
        CreatedAt := ⟨120⟩, UpdatedAt := Time.zero } }

/-- A store whose keys are not the IDs of its tasks, as a hand-written `db.json`
can hold: key 3 holds the task with ID 9, key 5 the task with ID 2. -/
def keysOff : tasks :=
  { NextID := 9,
    Db := ((∅ : TaskMap).insert 3
      { ID := 9, Description := "buy milk", Status := "todo",
        CreatedAt := ⟨100⟩, UpdatedAt := Time.zero }).insert 5
      { ID := 2, Description := "walk dog", Status := "todo",
        CreatedAt := ⟨110⟩, UpdatedAt := Time.zero } }

/-- A store whose counter is the largest `int` and which holds a done task
under the smallest `int`, as a hand-written `db.json` can hold. -/
def wrapsOnto : tasks :=
  { NextID := 9223372036854775807,
    Db := (∅ : TaskMap).insert (-9223372036854775808)
      { ID := -9223372036854775808, Description := "buy milk", Status := "done",
        CreatedAt := ⟨100⟩, UpdatedAt := ⟨150⟩ } }

/-- A store whose counter is the largest `int`. -/
def fullCounter : tasks := { NextID := 9223372036854775807, Db := ∅ }

/-- A store whose counter lags behind its keys, as a hand-written `db.json` can
hold: key 1 is taken while the counter is still zero. -/
def staleCounter : tasks :=
  { NextID := 0,
    Db := (∅ : TaskMap).insert 1
      { ID := 1, Description := "buy milk", Status := "done",
        CreatedAt := ⟨100⟩, UpdatedAt := ⟨150⟩ } }

/-! ## Loading what `encode` wrote -/

theorem sortInts_eq (s : Finset Int) : sortInts s.val = s.sort (· ≤ ·) := by
  rcases s with ⟨⟨l⟩, hl⟩
  apply List.eq_of_perm_of_sorted (r := (· ≤ ·))
  · refine (List.perm_insertionSort _ l).trans ?_
    exact Multiset.coe_eq_coe.mp (Finset.sort_eq (· ≤ ·) ⟨Quot.mk _ l, hl⟩).symm
  · exact List.sorted_insertionSort _ l
  · exact Finset.sort_sorted _ _

theorem mem_sortedKeys (db : TaskMap) (k : Int) : k ∈ sortInts db.keys.val ↔ k ∈ db := by
  rw [sortInts_eq, Finset.mem_sort, Finmap.mem_keys]

theorem sortedKeys_sorted (db : TaskMap) : (sortInts db.keys.val).Sorted (· < ·) := by
  rw [sortInts_eq]
  exact Finset.sort_sorted_lt _

theorem mem_encodeOrder (db : TaskMap) (k : Int) :
    k ∈ (sortInts db.keys.val).insertionSort keyTextLE ↔ k ∈ db := by
  rw [(List.perm_insertionSort keyTextLE _).mem_iff, mem_sortedKeys]

theorem lookup_foldl_entries (db : TaskMap) (ks : List Int) (m : TaskMap) (k : Int) :
    Finmap.lookup k
        ((ks.filterMap fun a => (db.lookup a).map fun x => (a, x)).foldl
          (fun m e => m.insert e.1 e.2) m)
      = if k ∈ ks ∧ k ∈ db then db.lookup k else m.lookup k := by
  induction ks generalizing m with
  | nil => simp
  | cons a rest ih =>
    cases hx : db.lookup a with
    | none =>
      have ha : a ∉ db := Finmap.lookup_eq_none.mp hx
      rw [List.filterMap_cons_none (by simp [hx]), ih]
      by_cases hk : k = a
      · subst hk; simp [ha]
      · simp [hk]
    | some x =>
      have ha : a ∈ db := Finmap.mem_iff.mpr ⟨x, hx⟩
      rw [List.filterMap_cons_some (by simp [hx]; rfl), List.foldl_cons, ih]
      by_cases hk : k = a
      · subst hk
        by_cases hr : k ∈ rest
        · simp [hr, ha]
        · simp [hr, ha, hx]
      · simp [hk, Finmap.lookup_insert_of_ne _ hk]

theorem foldl_encodeEntries (db : TaskMap) :
    (encodeEntries db).foldl (fun m e => m.insert e.1 e.2) ∅ = db := by
  apply Finmap.ext_lookup
  intro k
  unfold encodeEntries
  rw [lookup_foldl_entries]
  by_cases hk : k ∈ db
  · have h := (mem_encodeOrder db k).mpr hk
    rw [if_pos ⟨h, hk⟩]
  · simp [hk, Finmap.lookup_eq_none.mpr hk]

theorem Decode_encode (t s : tasks) (hs : s.Db = ∅) : Decode t.encode s = .ok t := by
  simp [Decode, tasks.encode, hs, foldl_encodeEntries]

theorem Loads_encode (t : tasks) : Loads (some t.encode) t := by
  simp [Loads, tasks.initializeTasks, Decode_encode]

theorem Loads_none : Loads none { NextID := 0, Db := ∅ } := by
  simp [Loads, tasks.initializeTasks, Decode]

theorem Loads_empty : Loads (some .empty) { NextID := 0, Db := ∅ } := by
  simp [Loads, tasks.initializeTasks, Decode]

theorem encodeEntries_empty : encodeEntries ∅ = [] := by
  rfl

theorem keys_insert_of_mem (db : TaskMap) (id : Int) (x : task) (h : id ∈ db) :
    (db.insert id x).keys = db.keys := by
  ext k
  simp only [Finmap.mem_keys, Finmap.mem_insert]
  constructor
  · rintro (rfl | hk)
    · exact h
    · exact hk
  · exact Or.inr

theorem oneTask_lookup :
    oneTask.Db.lookup 1 = some { ID := 1, Description := "buy milk", Status := "todo",
                                 CreatedAt := ⟨100⟩, UpdatedAt := Time.zero } := by
  simp [oneTask]

/-! ## What each handler returns, case by case -/

theorem wrapInt_succ (n : Int) (h1 : minInt ≤ n) (h2 : n < maxInt) :
    wrapInt (n + 1) = n + 1 := by
  unfold wrapInt
  unfold minInt at h1
  unfold maxInt at h2
  omega

theorem isAddLine_iff (lower : String → String) (args : List String) :
    isAddLine lower args = true ↔ ∃ prog cmd d, args = [prog, cmd, d] ∧ lower cmd = "add" := by
  constructor
  · intro h
    simp only [isAddLine, decide_eq_true_eq] at h
    obtain ⟨hl, hc⟩ := h
    match args, hl, hc with
    | [p, c, d], _, hc => exact ⟨p, c, d, rfl, by simpa using hc⟩
  · rintro ⟨p, c, d, rfl, hc⟩
    simp [isAddLine, hc]

theorem add_eq (t : tasks) (prog cmd d : String) (now : Time) (file : FileContent) :
    t.add [prog, cmd, d] now file =
      { t := { NextID := wrapInt (t.NextID + 1),
               Db := t.Db.insert (wrapInt (t.NextID + 1))
                 { ID := wrapInt (t.NextID + 1), Description := d, Status := "todo",
                   CreatedAt := now, UpdatedAt := Time.zero } },
        file := tasks.encode
          { NextID := wrapInt (t.NextID + 1),
            Db := t.Db.insert (wrapInt (t.NextID + 1))
              { ID := wrapInt (t.NextID + 1), Description := d, Status := "todo",
                CreatedAt := now, UpdatedAt := Time.zero } },
        out := [.stdout ("Task added, and its identity: "
          ++ toString (wrapInt (t.NextID + 1)) ++ "\n")],
        encodes := 1, panic := none } := by
  simp [tasks.add]

theorem update_found (t : tasks) (prog cmd a d : String) (now : Time) (file : FileContent)
    (id : Int) (x : task) (ha : Atoi a = some id) (hx : t.Db.lookup id = some x) :
    t.update [prog, cmd, a, d] now file =
      { t := { NextID := t.NextID,
               Db := t.Db.insert id { ID := x.ID, Description := d, Status := x.Status,
                                      CreatedAt := x.CreatedAt, UpdatedAt := now } },
        file := tasks.encode
          { NextID := t.NextID,
            Db := t.Db.insert id { ID := x.ID, Description := d, Status := x.Status,
                                   CreatedAt := x.CreatedAt, UpdatedAt := now } },
        out := [.stdout ("Task " ++ toString id ++ " updated\n")],
        encodes := 1, panic := none } := by
  simp [tasks.update, ha, hx]

theorem update_absent (t : tasks) (prog cmd a d : String) (now : Time) (file : FileContent)
    (id : Int) (ha : Atoi a = some id) (hx : t.Db.lookup id = none) :
    t.update [prog, cmd, a, d] now file =
      Run.quit t file [.stderr ("Task with id: " ++ toString id ++ " does not exist\n")] := by
  simp [tasks.update, ha, hx]

theorem delete_eq (t : tasks) (prog cmd a : String) (file : FileContent) (id : Int)
    (ha : Atoi a = some id) :
    t.delete [prog, cmd, a] file =
      { t := { NextID := t.NextID, Db := t.Db.erase id },
        file := tasks.encode { NextID := t.NextID, Db := t.Db.erase id },
        out := [.stdout ("Task " ++ toString id ++ " deleted\n")],
        encodes := 1, panic := none } := by
  simp [tasks.delete, ha]

theorem updateStatus_found (lower : String → String) (t : tasks) (prog cmd a : String)
    (now : Time) (file : FileContent) (id : Int) (x : task)
    (ha : Atoi a = some id) (hx : t.Db.lookup id = some x) :
    t.updateStatus lower [prog, cmd, a] now file =
      { t := { NextID := t.NextID,
               Db := t.Db.insert id
                 { ID := x.ID, Description := x.Description,
                   Status := if lower cmd = "mark-done" then "done" else "in-progress",
                   CreatedAt := x.CreatedAt, UpdatedAt := now } },
        file := tasks.encode
          { NextID := t.NextID,
            Db := t.Db.insert id
              { ID := x.ID, Description := x.Description,
                Status := if lower cmd = "mark-done" then "done" else "in-progress",
                CreatedAt := x.CreatedAt, UpdatedAt := now } },
        out := [.stdout ("Task " ++ toString id ++ " status is updated\n")],
        encodes := 1, panic := none } := by
  simp [tasks.updateStatus, ha, hx]

theorem updateStatus_absent (lower : String → String) (t : tasks) (prog cmd a : String)
    (now : Time) (file : FileContent) (id : Int)
    (ha : Atoi a = some id) (hx : t.Db.lookup id = none) :
    t.updateStatus lower [prog, cmd, a] now file =
      Run.quit t file [.stderr ("Task with id: " ++ toString id ++ " does not exist\n")] := by
  simp [tasks.updateStatus, ha, hx]

theorem dispatch_delete (lower : String → String) (t : tasks) (prog cmd : String)
    (rest : List String) (now : Time) (file : FileContent) (hcmd : lower cmd = "delete") :
    dispatch lower t (prog :: cmd :: rest) now file = t.delete (prog :: cmd :: rest) file := by
  simp [dispatch, hcmd]

theorem dispatch_updateStatus (lower : String → String) (t : tasks) (prog cmd : String)
    (rest : List String) (now : Time) (file : FileContent)
    (hcmd : lower cmd = "mark-done" ∨ lower cmd = "mark-in-progress") :
    dispatch lower t (prog :: cmd :: rest) now file
      = t.updateStatus lower (prog :: cmd :: rest) now file := by
  rcases hcmd with h | h <;> simp [dispatch, h]

theorem Track_of_Loads (lower : String → String) (args : List String) (now : Time)
    (disk : Option FileContent) (t : tasks) (h : Loads disk t) :
    Track lower args now disk = dispatch lower t args now (disk.getD .empty) := by
  unfold Loads at h
  simp [Track, h]

theorem erase_of_not_mem (db : TaskMap) (id : Int) (h : id ∉ db) : db.erase id = db := by
  apply Finmap.ext_lookup
  intro k
  by_cases hk : k = id
  · subst hk
    rw [Finmap.lookup_erase, Finmap.lookup_eq_none.mpr h]
  · exact Finmap.lookup_erase_ne hk

theorem map_lookup_eq_map_some {α β : Type} (f : α → Option β) (ks : List α)
    (h : ∀ k ∈ ks, ∃ x, f k = some x) : ks.map f = (ks.filterMap f).map some := by
  induction ks with
  | nil => rfl
  | cons a rest ih =>
    obtain ⟨x, hx⟩ := h a (List.mem_cons_self _ _)
    have ih2 := ih fun k hk => h k (List.mem_cons_of_mem _ hk)
    rw [List.filterMap_cons_some hx, List.map_cons, List.map_cons, ih2, hx]

theorem map_ID_filterMap (f : Int → Option task) (ks : List Int)
    (h : ∀ k ∈ ks, ∃ x, f k = some x ∧ x.ID = k) : (ks.filterMap f).map task.ID = ks := by
  induction ks with
  | nil => rfl
  | cons a rest ih =>
    obtain ⟨x, hx, hxa⟩ := h a (List.mem_cons_self _ _)
    have ih2 := ih fun k hk => h k (List.mem_cons_of_mem _ hk)
    rw [List.filterMap_cons_some hx, List.map_cons, ih2, hxa]

theorem mem_ordered (t : tasks) (x : task) : x ∈ t.ordered ↔ ∃ k, t.Db.lookup k = some x := by
  unfold tasks.ordered
  rw [List.mem_filterMap]
  constructor
  · rintro ⟨k, _, hk⟩
    exact ⟨k, hk⟩
  · rintro ⟨k, hk⟩
    exact ⟨k, (mem_sortedKeys t.Db k).mpr (Finmap.mem_iff.mpr ⟨x, hk⟩), hk⟩

theorem dispatch_list (lower : String → String) (t : tasks) (prog cmd : String)
    (rest : List String) (now : Time) (file : FileContent) (hcmd : lower cmd = "list") :
    dispatch lower t (prog :: cmd :: rest) now file = t.list (prog :: cmd :: rest) file := by
  simp [dispatch, hcmd]

theorem forall_lookup_of_keys (db : TaskMap) (P : Int → task → Prop)
    (h : ∀ k ∈ sortInts db.keys.val, ∀ x ∈ db.lookup k, P k x) :
    ∀ k x, db.lookup k = some x → P k x := by
  intro k x hx
  exact h k ((mem_sortedKeys db k).mpr (Finmap.mem_iff.mpr ⟨x, hx⟩)) x hx

/-! ## What an invocation may do to the store and the file -/

theorem update_effect (t : tasks) (args : List String) (now : Time) (file : FileContent) :
    ((t.update args now file).encodes = 0 ∧ (t.update args now file).t = t ∧
      (t.update args now file).file = file) ∨
    ((t.update args now file).encodes = 1 ∧
      (t.update args now file).file = (t.update args now file).t.encode ∧
      (t.update args now file).t.NextID = t.NextID) := by
  unfold tasks.update
  repeat' split
  all_goals simp [Run.quit, Run.outOfRange]

theorem delete_effect (t : tasks) (args : List String) (file : FileContent) :
    ((t.delete args file).encodes = 0 ∧ (t.delete args file).t = t ∧
      (t.delete args file).file = file) ∨
    ((t.delete args file).encodes = 1 ∧
      (t.delete args file).file = (t.delete args file).t.encode ∧
      (t.delete args file).t.NextID = t.NextID) := by
  unfold tasks.delete
  repeat' split
  all_goals simp [Run.quit, Run.outOfRange]

theorem updateStatus_effect (lower : String → String) (t : tasks) (args : List String)
    (now : Time) (file : FileContent) :
    ((t.updateStatus lower args now file).encodes = 0 ∧
      (t.updateStatus lower args now file).t = t ∧
      (t.updateStatus lower args now file).file = file) ∨
    ((t.updateStatus lower args now file).encodes = 1 ∧
      (t.updateStatus lower args now file).file
        = (t.updateStatus lower args now file).t.encode ∧
      (t.updateStatus lower args now file).t.NextID = t.NextID) := by
  unfold tasks.updateStatus
  repeat' split
  all_goals simp [Run.quit, Run.outOfRange]

theorem list_effect (t : tasks) (args : List String) (file : FileContent) :
    (t.list args file).encodes = 0 ∧ (t.list args file).t = t ∧
      (t.list args file).file = file := by
  unfold tasks.list
  repeat' split
  all_goals simp [Run.quit, Run.outOfRange]

theorem add_effect (t : tasks) (args : List String) (now : Time) (file : FileContent) :
    ((t.add args now file).encodes = 0 ∧ (t.add args now file).t = t ∧
      (t.add args now file).file = file ∧ args.length ≠ 3) ∨
    ((t.add args now file).encodes = 1 ∧
      (t.add args now file).file = (t.add args now file).t.encode ∧
      (t.add args now file).t.NextID = wrapInt (t.NextID + 1) ∧ args.length = 3) := by
  unfold tasks.add
  split
  · rename_i h
    simp [Run.quit, h]
  · rename_i h
    split
    · rename_i h2
      rw [List.getElem?_eq_none_iff] at h2
      omega
    · right
      exact ⟨rfl, rfl, rfl, not_not.mp h⟩

theorem dispatch_addLine (lower : String → String) (t : tasks) (args : List String)
    (now : Time) (file : FileContent) (h : isAddLine lower args = true) :
    (dispatch lower t args now file).encodes = 1 ∧
    (dispatch lower t args now file).file = (dispatch lower t args now file).t.encode ∧
    (dispatch lower t args now file).t.NextID = wrapInt (t.NextID + 1) ∧
    AssignedBy args (dispatch lower t args now file) (wrapInt (t.NextID + 1)) := by
  obtain ⟨prog, cmd, d, rfl, hc⟩ := (isAddLine_iff lower _).mp h
  have hd : dispatch lower t [prog, cmd, d] now file = t.add [prog, cmd, d] now file := by
    simp [dispatch, hc]
  rw [hd, add_eq]
  simp [AssignedBy]

theorem dispatch_effect (lower : String → String) (t : tasks) (args : List String)
    (now : Time) (file : FileContent) :
    ((dispatch lower t args now file).encodes = 0 ∧ (dispatch lower t args now file).t = t ∧
      (dispatch lower t args now file).file = file ∧
      isAddLine lower args = false) ∨
    ((dispatch lower t args now file).encodes = 1 ∧
      (dispatch lower t args now file).file = (dispatch lower t args now file).t.encode ∧
      (dispatch lower t args now file).t.NextID = t.NextID ∧
      isAddLine lower args = false) ∨
    ((dispatch lower t args now file).encodes = 1 ∧
      (dispatch lower t args now file).file = (dispatch lower t args now file).t.encode ∧
      (dispatch lower t args now file).t.NextID = wrapInt (t.NextID + 1) ∧
      isAddLine lower args = true) := by
  cases hl : isAddLine lower args with
  | true =>
    obtain ⟨h1, h2, h3, _⟩ := dispatch_addLine lower t args now file hl
    exact Or.inr (Or.inr ⟨h1, h2, h3, rfl⟩)
  | false =>
    have hno : ∀ cmd, args[1]? = some cmd → lower cmd = "add" → args.length ≠ 3 := by
      intro cmd hc hadd h3
      have : isAddLine lower args = true := by simp [isAddLine, h3, hc, hadd]
      rw [hl] at this
      cases this
    unfold dispatch
    cases hc : args[1]? with
    | none => simp [Run.outOfRange]
    | some cmd =>
      by_cases hadd : lower cmd = "add"
      · simp only [hadd, if_true]
        rcases add_effect t args now file with h | h
        · simp [h]
        · exact absurd h.2.2.2 (hno cmd hc hadd)
      · simp only [hadd, if_false]
        split
        · rcases update_effect t args now file with h | h <;> simp [h]
        · split
          · rcases delete_effect t args file with h | h <;> simp [h]
          · split
            · rcases updateStatus_effect lower t args now file with h | h <;> simp [h]
            · split
              · simp [list_effect t args file]
              · simp [Run.quit]

theorem Loads_getD (disk : Option FileContent) (t : tasks) (h : Loads disk t) :
    Loads (some (disk.getD .empty)) t := by
  cases disk with
  | none => exact h
  | some c => exact h

theorem Track_step (lower : String → String) (args : List String) (now : Time)
    (disk : Option FileContent) (t : tasks) (h : Loads disk t) :
    Loads (some (Track lower args now disk).file) (Track lower args now disk).t ∧
    (((Track lower args now disk).t.NextID = t.NextID ∧ isAddLine lower args = false) ∨
      ((Track lower args now disk).t.NextID = wrapInt (t.NextID + 1) ∧
        isAddLine lower args = true ∧
        AssignedBy args (Track lower args now disk) (Track lower args now disk).t.NextID)) := by
  rw [Track_of_Loads lower args now disk t h]
  rcases dispatch_effect lower t args now (disk.getD .empty) with h1 | h1 | h1
  · refine ⟨?_, Or.inl ⟨?_, h1.2.2.2⟩⟩
    · rw [h1.2.1, h1.2.2.1]; exact Loads_getD disk t h
    · rw [h1.2.1]
  · refine ⟨?_, Or.inl ⟨h1.2.2.1, h1.2.2.2⟩⟩
    rw [h1.2.1]; exact Loads_encode _
  · refine ⟨?_, Or.inr ⟨h1.2.2.1, h1.2.2.2, ?_⟩⟩
    · rw [h1.2.1]; exact Loads_encode _
    · rw [h1.2.2.1]
      exact (dispatch_addLine lower t args now (disk.getD .empty) h1.2.2.2).2.2.2

theorem Track_counter (lower : String → String) (args : List String) (now : Time)
    (disk : Option FileContent) (t : tasks) (h : Loads disk t)
    (hmin : minInt ≤ t.NextID) (hmax : t.NextID < maxInt) :
    t.NextID ≤ (Track lower args now disk).t.NextID ∧
    (Track lower args now disk).t.NextID ≤ t.NextID + 1 ∧
    (isAddLine lower args = true → (Track lower args now disk).t.NextID = t.NextID + 1) ∧
    (isAddLine lower args = false → (Track lower args now disk).t.NextID = t.NextID) := by
  have hw := wrapInt_succ t.NextID hmin hmax
  rcases (Track_step lower args now disk t h).2 with ⟨h1, h2⟩ | ⟨h1, h2, _⟩
  · rw [h1, h2]; simp
  · rw [h1, h2, hw]; simp

theorem addRuns_cons (lower : String → String) (disk : Option FileContent)
    (args : List String) (now : Time) (rest : List (List String × Time)) :
    addRuns lower disk ((args, now) :: rest)
      = if isAddLine lower args = true then
          ((args, now), Track lower args now disk)
            :: addRuns lower (some (Track lower args now disk).file) rest
        else addRuns lower (some (Track lower args now disk).file) rest := by
  unfold addRuns
  rw [session, List.zip_cons_cons, List.filter_cons]

theorem addRuns_increasing (lower : String → String) (invs : List (List String × Time)) :
    ∀ (disk : Option FileContent) (t : tasks), Loads disk t → minInt ≤ t.NextID →
      t.NextID + invs.length ≤ maxInt →
      (∀ p ∈ addRuns lower disk invs, AssignedBy p.1.1 p.2 p.2.t.NextID) ∧
      ((addRuns lower disk invs).map fun p => p.2.t.NextID).Sorted (· < ·) ∧
      ∀ p ∈ addRuns lower disk invs, t.NextID < p.2.t.NextID := by
  induction invs with
  | nil =>
    intro disk t _ _ _
    simp [addRuns, session]
  | cons inv rest ih =>
    intro disk t h hmin hmax
    obtain ⟨args, now⟩ := inv
    have hlen : ((args, now) :: rest).length = rest.length + 1 := rfl
    rw [hlen] at hmax
    push_cast at hmax
    have hlt : t.NextID < maxInt := by omega
    obtain ⟨hl, hstep⟩ := Track_step lower args now disk t h
    obtain ⟨hge, hle, _, _⟩ := Track_counter lower args now disk t h hmin hlt
    obtain ⟨ha, hs, hgt⟩ := ih _ _ hl (by omega) (by omega)
    rw [addRuns_cons]
    rcases hstep with ⟨_, hno⟩ | ⟨hn, hyes, hassigned⟩
    · rw [hno]
      simp only [Bool.false_eq_true, if_false]
      exact ⟨ha, hs, fun p hp => lt_of_le_of_lt hge (hgt p hp)⟩
    · rw [hyes]
      simp only [if_true, List.mem_cons, List.map_cons, List.sorted_cons, List.mem_map]
      have hw := wrapInt_succ t.NextID hmin hlt
      refine ⟨?_, ⟨?_, hs⟩, ?_⟩
      · rintro p (rfl | hp)
        · exact hassigned
        · exact ha p hp
      · rintro i ⟨p, hp, rfl⟩
        exact hgt p hp
      · rintro p (rfl | hp)
        · show t.NextID < (Track lower args now disk).t.NextID
          omega
        · have := hgt p hp
          omega

/-! ## Stores built by `add`, and their listing -/

theorem filterMap_lookup_map_ID (db : TaskMap) (l : List task)
    (h : ∀ x ∈ l, db.lookup x.ID = some x) :
    (l.map task.ID).filterMap (fun k => db.lookup k) = l := by
  induction l with
  | nil => rfl
  | cons a rest ih =>
    have ha : db.lookup a.ID = some a := h a (List.mem_cons_self _ _)
    rw [List.map_cons, List.filterMap_cons, ha,
      ih fun x hx => h x (List.mem_cons_of_mem _ hx)]

theorem ordered_of_Spells (t : tasks) (l : List task) (h : Spells t l) : t.ordered = l := by
  obtain ⟨hs, hl, _⟩ := h
  have hkeys : sortInts t.Db.keys.val = l.map task.ID := by
    apply List.eq_of_perm_of_sorted (r := (· < ·)) _ (sortedKeys_sorted _) hs
    rw [List.perm_ext_iff_of_nodup (sortedKeys_sorted _).nodup hs.nodup]
    intro k
    rw [mem_sortedKeys, Finmap.mem_iff, List.mem_map]
    constructor
    · rintro ⟨x, hx⟩
      exact ⟨x, (hl k x).mp hx⟩
    · rintro ⟨x, hx⟩
      exact ⟨x, (hl k x).mpr hx⟩
  unfold tasks.ordered
  rw [hkeys]
  exact filterMap_lookup_map_ID _ _ fun x hx => (hl x.ID x).mpr ⟨hx, rfl⟩

theorem Spells_empty : Spells { NextID := 0, Db := ∅ } [] := by
  refine ⟨List.sorted_nil, ?_, ?_⟩
  · intro k x
    simp [Finmap.lookup_empty]
  · intro x hx
    cases hx

theorem Spells_add (t : tasks) (l : List task) (d : String) (now : Time) (h : Spells t l) :
    Spells
      { NextID := t.NextID + 1,
        Db := t.Db.insert (t.NextID + 1)
          { ID := t.NextID + 1, Description := d, Status := "todo",
            CreatedAt := now, UpdatedAt := Time.zero } }
      (l ++ [{ ID := t.NextID + 1, Description := d, Status := "todo",
               CreatedAt := now, UpdatedAt := Time.zero }]) := by
  obtain ⟨hs, hl, hb⟩ := h
  refine ⟨?_, ?_, ?_⟩
  · rw [List.map_append, List.Sorted, List.pairwise_append]
    refine ⟨hs, by simp, ?_⟩
    intro a ha b hb2
    obtain ⟨x, hx, rfl⟩ := List.mem_map.mp ha
    simp only [List.map_cons, List.map_nil, List.mem_singleton] at hb2
    have := hb x hx
    omega
  · intro k x
    by_cases hk : k = t.NextID + 1
    · subst hk
      rw [Finmap.lookup_insert]
      constructor
      · intro hx
        cases hx
        simp
      · rintro ⟨hx, hid⟩
        rcases List.mem_append.mp hx with hx | hx
        · have := hb x hx
          omega
        · rw [List.mem_singleton.mp hx]
    · rw [Finmap.lookup_insert_of_ne _ hk, hl]
      constructor
      · rintro ⟨hx, hid⟩
        exact ⟨List.mem_append_left _ hx, hid⟩
      · rintro ⟨hx, hid⟩
        rcases List.mem_append.mp hx with hx | hx
        · exact ⟨hx, hid⟩
        · rw [List.mem_singleton.mp hx] at hid
          exact absurd hid.symm hk
  · intro x hx
    rcases List.mem_append.mp hx with hx | hx
    · have := hb x hx
      show x.ID ≤ t.NextID + 1
      omega
    · rw [List.mem_singleton.mp hx]

theorem dispatch_add (lower : String → String) (t : tasks) (prog cmd : String)
    (rest : List String) (now : Time) (file : FileContent) (hcmd : lower cmd = "add") :
    dispatch lower t (prog :: cmd :: rest) now file = t.add (prog :: cmd :: rest) now file := by
  simp [dispatch, hcmd]

theorem adds_then_list (lower : String → String) (prog cmd lcmd : String) (now : Time)
    (hadd : lower cmd = "add") (hlist : lower lcmd = "list") (ds : List (String × Time)) :
    ∀ (disk : Option FileContent) (t : tasks) (l : List task) (n : Nat),
      Loads disk t → Spells t l → t.NextID = n → n + ds.length < 2 ^ 63 →
      (Track lower [prog, lcmd] now
          (sessionDisk lower disk (ds.map fun d => ([prog, cmd, d.1], d.2)))).out
        = (l ++ (ds.enumFrom n).map fun p =>
            ({ ID := (p.1 : Int) + 1, Description := p.2.1, Status := "todo",
               CreatedAt := p.2.2, UpdatedAt := Time.zero } : task)).map
            Output.stdoutTask := by
  induction ds with
  | nil =>
    intro disk t l n hl hs _ _
    simp only [List.map_nil, sessionDisk, List.enumFrom_nil, List.append_nil]
    rw [Track_of_Loads lower _ now disk t hl, dispatch_list lower t prog lcmd [] now _ hlist]
    simp [tasks.list, Run.quit, ordered_of_Spells t l hs]
  | cons d rest ih =>
    intro disk t l n hl hs hn hb
    obtain ⟨d, now1⟩ := d
    have hlen : ((d, now1) :: rest).length = rest.length + 1 := rfl
    rw [hlen] at hb
    have hw : wrapInt (t.NextID + 1) = t.NextID + 1 := by
      apply wrapInt_succ
      · rw [hn]; unfold minInt; omega
      · rw [hn]; unfold maxInt; omega
    simp only [List.map_cons, sessionDisk, List.enumFrom_cons]
    rw [Track_of_Loads lower [prog, cmd, d] now1 disk t hl,
      dispatch_add lower t prog cmd [d] now1 _ hadd, add_eq, hw]
    rw [ih _ _ _ (n + 1) (Loads_encode _) (Spells_add t l d now1 hs) (by simp [hn])
      (by omega)]
    simp [hn]



theorem filter_filterMap_keys (f : Int → Option task) (p : task → Bool) (q : Int → Bool)
    (ks : List Int) (h : ∀ k ∈ ks, ∀ x, f k = some x → p x = q k) :
    (ks.filterMap f).filter p = (ks.filter q).filterMap f := by
  induction ks with
  | nil => rfl
  | cons a rest ih =>
    have ih2 := ih fun k hk => h k (List.mem_cons_of_mem _ hk)
    cases hfa : f a with
    | none =>
      rw [List.filterMap_cons_none hfa, ih2, List.filter_cons]
      split
      · rw [List.filterMap_cons_none hfa]
      · rfl
    | some x =>
      have hpq := h a (List.mem_cons_self _ _) x hfa
      rw [List.filterMap_cons_some hfa, List.filter_cons, List.filter_cons, hpq]
      split
      · rw [List.filterMap_cons_some hfa, ih2]
      · exact ih2

theorem sortInts_filter (A : Finset Int) (q : Int → Prop) [DecidablePred q] :
    (sortInts A.val).filter (fun k => decide (q k)) = sortInts (A.filter q).val := by
  rw [sortInts_eq, sortInts_eq]
  apply List.eq_of_perm_of_sorted (r := (· < ·)) _
    ((Finset.sort_sorted_lt A).filter _) (Finset.sort_sorted_lt _)
  rw [List.perm_ext_iff_of_nodup ((Finset.sort_nodup _ A).filter _) (Finset.sort_nodup _ _)]
  intro k
  simp [List.mem_filter, Finset.mem_sort, Finset.mem_filter]

/-! ## Marking tasks done -/

theorem MarkedDone_step (t t1 : tasks) (D : Finset Int) (id : Int) (x1 : task) (now : Time)
    (h : MarkedDone t t1 D) (hx1 : t1.Db.lookup id = some x1) :
    MarkedDone t
      { NextID := t1.NextID,
        Db := t1.Db.insert id
          { ID := x1.ID, Description := x1.Description, Status := "done",
            CreatedAt := x1.CreatedAt, UpdatedAt := now } }
      (insert id D) := by
  obtain ⟨hk, hd, hn⟩ := h
  have hid1 : id ∈ t1.Db := Finmap.mem_iff.mpr ⟨x1, hx1⟩
  refine ⟨?_, ?_, ?_⟩
  · intro k
    rw [← hk k, Finmap.mem_insert]
    constructor
    · rintro (rfl | h1)
      · exact hid1
      · exact h1
    · exact Or.inr
  · intro k hkD
    by_cases hki : k = id
    · subst hki
      obtain ⟨x0, hx0⟩ := Finmap.mem_iff.mp ((hk k).mp hid1)
      refine ⟨x0, _, hx0, Finmap.lookup_insert _, rfl, ?_, ?_, ?_⟩
      all_goals
        by_cases hD : k ∈ D
        · obtain ⟨y0, y, hy0, hy, _, h1, h2, h3⟩ := hd k hD
          rw [hx1] at hy
          rw [hx0] at hy0
          cases hy
          cases hy0
          first | exact h1 | exact h2 | exact h3
        · have := hn k hD
          rw [hx1, hx0] at this
          cases this
          rfl
    · have hD : k ∈ D := by
        rcases Finset.mem_insert.mp hkD with h1 | h1
        · exact absurd h1 hki
        · exact h1
      obtain ⟨y0, y, hy0, hy, h0, h1, h2, h3⟩ := hd k hD
      exact ⟨y0, y, hy0, by rw [Finmap.lookup_insert_of_ne _ hki]; exact hy, h0, h1, h2, h3⟩
  · intro k hkD
    have hki : k ≠ id := fun h => hkD (h ▸ Finset.mem_insert_self _ _)
    have hD : k ∉ D := fun h => hkD (Finset.mem_insert_of_mem h)
    show Finmap.lookup k (Finmap.insert id _ t1.Db) = _
    rw [Finmap.lookup_insert_of_ne _ hki]
    exact hn k hD

theorem marks_session (lower : String → String) (prog mcmd : String) (t : tasks)
    (hm : lower mcmd = "mark-done") (marks : List (String × Time)) :
    ∀ (disk : Option FileContent) (t1 : tasks) (D : Finset Int),
      Loads disk t1 → MarkedDone t t1 D →
      (∀ m ∈ marks, ∃ id, Atoi m.1 = some id ∧ id ∈ t.Db) →
      ∃ t2, Loads (sessionDisk lower disk (marks.map fun m => ([prog, mcmd, m.1], m.2))) t2 ∧
        MarkedDone t t2 (D ∪ (marks.filterMap fun m => Atoi m.1).toFinset) := by
  induction marks with
  | nil =>
    intro disk t1 D hl hmd _
    exact ⟨t1, hl, by simpa using hmd⟩
  | cons m rest ih =>
    intro disk t1 D hl hmd hS
    obtain ⟨a, now1⟩ := m
    obtain ⟨id, ha, hid⟩ := hS (a, now1) (List.mem_cons_self _ _)
    replace ha : Atoi a = some id := ha
    obtain ⟨x1, hx1⟩ := Finmap.mem_iff.mp ((hmd.1 id).mpr hid)
    have hstep := MarkedDone_step t t1 D id x1 now1 hmd hx1
    obtain ⟨t2, hl2, hmd2⟩ := ih (some (tasks.encode
        { NextID := t1.NextID,
          Db := t1.Db.insert id
            { ID := x1.ID, Description := x1.Description, Status := "done",
              CreatedAt := x1.CreatedAt, UpdatedAt := now1 } })) _ _ (Loads_encode _) hstep
      (fun m hm2 => hS m (List.mem_cons_of_mem _ hm2))
    refine ⟨t2, ?_, ?_⟩
    · simp only [List.map_cons, sessionDisk]
      rw [Track_of_Loads lower _ now1 disk t1 hl,
        dispatch_updateStatus lower t1 prog mcmd [a] now1 _ (Or.inl hm),
        updateStatus_found lower t1 prog mcmd a now1 _ id x1 ha hx1]
      simp only [hm, if_true]
      exact hl2
    · have hset : D ∪ (List.filterMap (fun m => Atoi m.1) ((a, now1) :: rest)).toFinset
          = insert id D ∪ (List.filterMap (fun m => Atoi m.1) rest).toFinset := by
        have hc : List.filterMap (fun m : String × Time => Atoi m.1) ((a, now1) :: rest)
            = id :: List.filterMap (fun m : String × Time => Atoi m.1) rest :=
          List.filterMap_cons_some ha
        rw [hc, List.toFinset_cons]
        ext k
        simp only [Finset.mem_union, Finset.mem_insert]
        tauto
      rw [hset]
      exact hmd2



theorem mem_sortInts (A : Finset Int) (k : Int) : k ∈ sortInts A.val ↔ k ∈ A := by
  rw [sortInts_eq, Finset.mem_sort]

theorem MarkedDone_refl (t : tasks) : MarkedDone t t ∅ :=
  ⟨fun _ => Iff.rfl, fun k hk => absurd hk (Finset.not_mem_empty k), fun _ _ => rfl⟩

theorem list_filter_out (lower : String → String) (prog lcmd f : String) (now : Time)
    (disk : Option FileContent) (t : tasks) (hl : lower lcmd = "list") (h : Loads disk t) :
    (Track lower [prog, lcmd, f] now disk).out
      = (t.ordered.filter fun x => decide (f = x.Status)).map Output.stdoutTask := by
  rw [Track_of_Loads lower _ now disk t h, dispatch_list lower t prog lcmd [f] now _ hl]
  simp [tasks.list, Run.quit]

/-! ## The claims -/

/-- C1 (as the code has it): the `add` command with exactly one description
argument leaves a store whose counter is the old one incremented in `int`
arithmetic and which holds, under that new ID, a task with that ID, the given
description, status `todo`, creation time `now` and the zero updated time;
every other key is as before; the new store is written to the file (so that it
loads again as that store), and the ID printed is the new ID.  The new ID is the
old counter plus one whenever the old counter is below the largest `int`, and
the smallest `int` when the old counter is the largest. -/
theorem add_spec (lower : String → String) (t : tasks) (prog cmd d : String) (now : Time)
    (file : FileContent) (hcmd : lower cmd = "add") :
    let r := dispatch lower t [prog, cmd, d] now file
    let id := wrapInt (t.NextID + 1)
    r.panic = none ∧
    r.t.NextID = id ∧
    r.t.Db.lookup id
      = some { ID := id, Description := d, Status := "todo",
               CreatedAt := now, UpdatedAt := Time.zero } ∧
    (∀ k, k ≠ id → r.t.Db.lookup k = t.Db.lookup k) ∧
    r.encodes = 1 ∧ r.file = r.t.encode ∧ Loads (some r.file) r.t ∧
    r.out = [.stdout ("Task added, and its identity: " ++ toString id ++ "\n")] ∧
    (minInt ≤ t.NextID → t.NextID < maxInt → id = t.NextID + 1) ∧
    (t.NextID = maxInt → id = minInt) := by
  intro r id
  have h : r = t.add [prog, cmd, d] now file := by
    simp [r, dispatch, hcmd]
  rw [h, add_eq]
  refine ⟨rfl, rfl, by simp [id], ?_, rfl, rfl, Loads_encode _, rfl,
    wrapInt_succ t.NextID, ?_⟩
  · intro k hk
    simp [Finmap.lookup_insert_of_ne _ hk]
  · intro hmax
    simp only [id, hmax]
    decide

theorem add_spec_witness :
    id "add" = "add" ∧
    (dispatch id oneTask ["tracker", "add", "walk dog"] ⟨200⟩ oneTask.encode).t.NextID = 2 ∧
    (dispatch id oneTask ["tracker", "add", "walk dog"] ⟨200⟩ oneTask.encode).t.Db.lookup 2
      = some { ID := 2, Description := "walk dog", Status := "todo",
               CreatedAt := ⟨200⟩, UpdatedAt := Time.zero } ∧
    (dispatch id oneTask ["tracker", "add", "walk dog"] ⟨200⟩ oneTask.encode).out
      = [.stdout "Task added, and its identity: 2\n"] :=
  ⟨rfl, (add_spec id oneTask "tracker" "add" "walk dog" ⟨200⟩ oneTask.encode rfl).2.1,
    (add_spec id oneTask "tracker" "add" "walk dog" ⟨200⟩ oneTask.encode rfl).2.2.1,
    (add_spec id oneTask "tracker" "add" "walk dog" ⟨200⟩ oneTask.encode rfl).2.2.2.2.2.2.2.1⟩

/-- C1, where the claim fails: on a store whose counter is the largest `int`,
`add` leaves the smallest `int` as the counter, not the old counter plus one,
and stores and prints the new task under that ID. -/
theorem add_wraps_at_maxInt :
    (dispatch id fullCounter ["tracker", "add", "walk dog"] ⟨200⟩ fullCounter.encode).t.NextID
      = -9223372036854775808 ∧
    (dispatch id fullCounter ["tracker", "add", "walk dog"] ⟨200⟩ fullCounter.encode).t.NextID
      ≠ fullCounter.NextID + 1 ∧
    (dispatch id fullCounter ["tracker", "add", "walk dog"] ⟨200⟩
        fullCounter.encode).t.Db.lookup (fullCounter.NextID + 1) = none ∧
    (dispatch id fullCounter ["tracker", "add", "walk dog"] ⟨200⟩ fullCounter.encode).out
      = [.stdout "Task added, and its identity: -9223372036854775808\n"] := by
  decide

/-- C2: IDs are never reused.  Through any sequence of invocations starting
from the empty store (commands of any kind, deletions included; fewer than
`2 ^ 63` of them), every `add` that goes through gives its task the counter
value it leaves: it prints that value, and stores the task under that key with
that `ID` field.  These IDs, oldest first, are strictly increasing, so pairwise
distinct, and each is positive. -/
theorem ids_never_reused (lower : String → String) (disk : Option FileContent)
    (invs : List (List String × Time)) (h : Loads disk { NextID := 0, Db := ∅ })
    (hn : invs.length < 2 ^ 63) :
    (∀ p ∈ addRuns lower disk invs, AssignedBy p.1.1 p.2 p.2.t.NextID) ∧
    ((addRuns lower disk invs).map fun p => p.2.t.NextID).Nodup ∧
    ((addRuns lower disk invs).map fun p => p.2.t.NextID).Sorted (· < ·) ∧
    ∀ p ∈ addRuns lower disk invs, 0 < p.2.t.NextID := by
  have hmin : minInt ≤ (0 : Int) := by decide
  have hmax : (0 : Int) + invs.length ≤ maxInt := by unfold maxInt; omega
  obtain ⟨h1, h2, h3⟩ := addRuns_increasing lower invs disk _ h hmin hmax
  exact ⟨h1, h2.nodup, h2, h3⟩

theorem ids_never_reused_witness :
    Loads none { NextID := 0, Db := ∅ } ∧
    ((addRuns id none
      [(["tracker", "add", "a"], ⟨1⟩), (["tracker", "add", "b"], ⟨2⟩),
       (["tracker", "delete", "2"], ⟨3⟩), (["tracker", "add", "c"], ⟨4⟩)]).map
        fun p => (p.2.out, p.2.t.NextID))
      = [([.stdout "Task added, and its identity: 1\n"], 1),
         ([.stdout "Task added, and its identity: 2\n"], 2),
         ([.stdout "Task added, and its identity: 3\n"], 3)] ∧
    ((addRuns id none
      [(["tracker", "add", "a"], ⟨1⟩), (["tracker", "add", "b"], ⟨2⟩),
       (["tracker", "delete", "2"], ⟨3⟩), (["tracker", "add", "c"], ⟨4⟩)]).map
        fun p => p.2.t.NextID).Nodup :=
  ⟨Loads_none, by decide,
    (ids_never_reused id none
      [(["tracker", "add", "a"], ⟨1⟩), (["tracker", "add", "b"], ⟨2⟩),
       (["tracker", "delete", "2"], ⟨3⟩), (["tracker", "add", "c"], ⟨4⟩)] Loads_none
      (by decide)).2.1⟩

/-- C3: `update` with an ID that is not a key of the store reports the
not-found error on standard error, does not run `encode`, and leaves the store
in memory and the content of the file as they were; with an ID that is a key it
reports no such error (its only output is the confirmation). -/
theorem update_missing (lower : String → String) (t : tasks) (prog cmd a d : String)
    (now : Time) (file : FileContent) (id : Int)
    (hcmd : lower cmd = "update") (ha : Atoi a = some id) :
    let r := dispatch lower t [prog, cmd, a, d] now file
    (id ∉ t.Db →
      r.out = [.stderr ("Task with id: " ++ toString id ++ " does not exist\n")] ∧
      r.encodes = 0 ∧ r.t = t ∧ r.file = file ∧ r.panic = none) ∧
    (id ∈ t.Db →
      r.out = [.stdout ("Task " ++ toString id ++ " updated\n")]) := by
  intro r
  have h : r = t.update [prog, cmd, a, d] now file := by
    simp [r, dispatch, hcmd]
  rw [h]
  constructor
  · intro hid
    rw [update_absent t prog cmd a d now file id ha (Finmap.lookup_eq_none.mpr hid)]
    simp [Run.quit]
  · intro hid
    obtain ⟨x, hx⟩ := Finmap.mem_iff.mp hid
    rw [update_found t prog cmd a d now file id x ha hx]

theorem update_missing_witness :
    id "update" = "update" ∧ Atoi "7" = some 7 ∧ (7 : Int) ∉ oneTask.Db ∧
    (dispatch id oneTask ["tracker", "update", "7", "x"] ⟨200⟩ oneTask.encode).t = oneTask ∧
    (dispatch id oneTask ["tracker", "update", "7", "x"] ⟨200⟩ oneTask.encode).file
      = oneTask.encode :=
  have h7 : (7 : Int) ∉ oneTask.Db := by simp [oneTask, Finmap.mem_insert, Finmap.not_mem_empty]
  ⟨rfl, by decide, h7,
    ((update_missing id oneTask "tracker" "update" "7" "x" ⟨200⟩ oneTask.encode 7 rfl
      (by decide)).1 h7).2.2.1,
    ((update_missing id oneTask "tracker" "update" "7" "x" ⟨200⟩ oneTask.encode 7 rfl
      (by decide)).1 h7).2.2.2.1⟩

/-- C4: a successful `update` changes, of the task under the ID, the
description (to the argument) and the updated time (to `now`) only; its ID,
status and creation time, every other entry, the set of keys and the counter
are as before, and the resulting store is written to the file. -/
theorem update_frame (lower : String → String) (t : tasks) (prog cmd a d : String)
    (now : Time) (file : FileContent) (id : Int) (x : task)
    (hcmd : lower cmd = "update") (ha : Atoi a = some id) (hx : t.Db.lookup id = some x) :
    let r := dispatch lower t [prog, cmd, a, d] now file
    r.t.Db.lookup id
      = some { ID := x.ID, Description := d, Status := x.Status,
               CreatedAt := x.CreatedAt, UpdatedAt := now } ∧
    (∀ k, k ≠ id → r.t.Db.lookup k = t.Db.lookup k) ∧
    r.t.Db.keys = t.Db.keys ∧
    r.t.NextID = t.NextID ∧
    r.encodes = 1 ∧ r.file = r.t.encode ∧ Loads (some r.file) r.t ∧ r.panic = none := by
  intro r
  have h : r = t.update [prog, cmd, a, d] now file := by
    simp [r, dispatch, hcmd]
  have hid : id ∈ t.Db := Finmap.mem_iff.mpr ⟨x, hx⟩
  rw [h, update_found t prog cmd a d now file id x ha hx]
  refine ⟨by simp, ?_, keys_insert_of_mem _ _ _ hid, rfl, rfl, rfl, Loads_encode _, rfl⟩
  intro k hk
  simp [Finmap.lookup_insert_of_ne _ hk]

theorem update_frame_witness :
    id "update" = "update" ∧ Atoi "1" = some 1 ∧
    (dispatch id oneTask ["tracker", "update", "1", "buy oat milk"] ⟨200⟩
        oneTask.encode).t.Db.lookup 1
      = some { ID := 1, Description := "buy oat milk", Status := "todo",
               CreatedAt := ⟨100⟩, UpdatedAt := ⟨200⟩ } :=
  ⟨rfl, by decide,
    (update_frame id oneTask "tracker" "update" "1" "buy oat milk" ⟨200⟩ oneTask.encode 1 _
      rfl (by decide) oneTask_lookup).1⟩

/-- C5 (as the code has it): `delete` with an ID that is not a key reports no
error and leaves the store in memory as it was, but it does run `encode`: the
file afterwards holds the encoding of that unchanged store, whatever it held
before.  The file loads again as the same store, and its content is unchanged
exactly when it already was that encoding. -/
theorem delete_missing (lower : String → String) (t : tasks) (prog cmd a : String)
    (now : Time) (file : FileContent) (id : Int)
    (hcmd : lower cmd = "delete") (ha : Atoi a = some id) (hid : id ∉ t.Db) :
    let r := dispatch lower t [prog, cmd, a] now file
    r.panic = none ∧
    r.out = [.stdout ("Task " ++ toString id ++ " deleted\n")] ∧
    r.t = t ∧
    r.encodes = 1 ∧ r.file = t.encode ∧ Loads (some r.file) t ∧
    (r.file = file ↔ file = t.encode) := by
  intro r
  have h : r = t.delete [prog, cmd, a] file := dispatch_delete lower t prog cmd [a] now file hcmd
  rw [h, delete_eq t prog cmd a file id ha, erase_of_not_mem _ _ hid]
  exact ⟨rfl, rfl, rfl, rfl, rfl, Loads_encode _, eq_comm⟩

theorem delete_missing_witness :
    id "delete" = "delete" ∧ Atoi "7" = some 7 ∧ (7 : Int) ∉ oneTask.Db ∧
    (dispatch id oneTask ["tracker", "delete", "7"] ⟨200⟩ oneTask.encode).t = oneTask ∧
    (dispatch id oneTask ["tracker", "delete", "7"] ⟨200⟩ oneTask.encode).file
      = oneTask.encode :=
  have h7 : (7 : Int) ∉ oneTask.Db := by
    simp [oneTask, Finmap.mem_insert, Finmap.not_mem_empty]
  ⟨rfl, by decide, h7,
    (delete_missing id oneTask "tracker" "delete" "7" ⟨200⟩ oneTask.encode 7 rfl
      (by decide) h7).2.2.1,
    (delete_missing id oneTask "tracker" "delete" "7" ⟨200⟩ oneTask.encode 7 rfl
      (by decide) h7).2.2.2.2.1⟩

/-- C5 fails as stated: on the state loaded from an absent `db.json` (the empty
store, the file created with zero bytes), `delete 7` names no key of the store,
yet the file afterwards is not what it was: it holds the JSON document of the
empty store. -/
theorem delete_missing_rewrites_file :
    tasks.initializeTasks { NextID := 0, Db := ∅ } none
      = (none, { NextID := 0, Db := ∅ }, FileContent.empty) ∧
    (7 : Int) ∉ (∅ : TaskMap) ∧
    (dispatch id { NextID := 0, Db := ∅ } ["tracker", "delete", "7"] ⟨200⟩
        FileContent.empty).file = FileContent.document 0 [] ∧
    (dispatch id { NextID := 0, Db := ∅ } ["tracker", "delete", "7"] ⟨200⟩
        FileContent.empty).file ≠ FileContent.empty := by
  have h : (dispatch id { NextID := 0, Db := ∅ } ["tracker", "delete", "7"] ⟨200⟩
        FileContent.empty).file = FileContent.document 0 [] := by
    rw [dispatch_delete id _ "tracker" "delete" ["7"] ⟨200⟩ _ rfl,
      delete_eq _ "tracker" "delete" "7" _ 7 (by decide)]
    simp [tasks.encode, erase_of_not_mem _ _ Finmap.not_mem_empty, encodeEntries_empty]
  refine ⟨Loads_none, Finmap.not_mem_empty, h, ?_⟩
  rw [h]
  exact fun hne => FileContent.noConfusion hne

/-- C6: `delete` removes exactly the entry under the ID: afterwards the ID is
not a key, every other key holds what it held, and the counter is unchanged.
Deleting the same ID again, on the store in memory or in a further invocation
on the file just written, gives the same store (and the same file). -/
theorem delete_spec (lower : String → String) (t : tasks) (prog cmd a : String)
    (now : Time) (file : FileContent) (id : Int)
    (hcmd : lower cmd = "delete") (ha : Atoi a = some id) :
    let r := dispatch lower t [prog, cmd, a] now file
    id ∉ r.t.Db ∧
    (∀ k, k ≠ id → r.t.Db.lookup k = t.Db.lookup k) ∧
    r.t.NextID = t.NextID ∧
    (∀ now2 file2, (dispatch lower r.t [prog, cmd, a] now2 file2).t = r.t) ∧
    (∀ prog2 cmd2 a2 now2, lower cmd2 = "delete" → Atoi a2 = some id →
      (Track lower [prog2, cmd2, a2] now2 (some r.file)).t = r.t ∧
      (Track lower [prog2, cmd2, a2] now2 (some r.file)).file = r.file) := by
  intro r
  have h : r = t.delete [prog, cmd, a] file := dispatch_delete lower t prog cmd [a] now file hcmd
  have hr : r = { t := { NextID := t.NextID, Db := t.Db.erase id },
                  file := tasks.encode { NextID := t.NextID, Db := t.Db.erase id },
                  out := [.stdout ("Task " ++ toString id ++ " deleted\n")],
                  encodes := 1, panic := none } := by
    rw [h, delete_eq t prog cmd a file id ha]
  have hnot : id ∉ t.Db.erase id := Finmap.not_mem_erase_self
  rw [hr]
  refine ⟨hnot, ?_, rfl, ?_, ?_⟩
  · intro k hk
    exact Finmap.lookup_erase_ne hk
  · intro now2 file2
    rw [dispatch_delete lower _ prog cmd [a] now2 file2 hcmd, delete_eq _ prog cmd a file2 id ha]
    simp [erase_of_not_mem _ _ hnot]
  · intro prog2 cmd2 a2 now2 hcmd2 ha2
    rw [Track_of_Loads lower _ now2 _ _ (Loads_encode _),
      dispatch_delete lower _ prog2 cmd2 [a2] now2 _ hcmd2, delete_eq _ prog2 cmd2 a2 _ id ha2]
    simp [erase_of_not_mem _ _ hnot]

theorem delete_spec_witness :
    id "delete" = "delete" ∧ Atoi "1" = some 1 ∧
    (1 : Int) ∉ (dispatch id oneTask ["tracker", "delete", "1"] ⟨200⟩ oneTask.encode).t.Db :=
  ⟨rfl, by decide,
    (delete_spec id oneTask "tracker" "delete" "1" ⟨200⟩ oneTask.encode 1 rfl (by decide)).1⟩

/-- C7: `mark-done` and `mark-in-progress` with an ID that is not a key report
the not-found error, leave the store and the file as they were and do not run
`encode`; with an ID that is a key they set the status of that task to `done`,
respectively `in-progress`, and its updated time to `now`, keep its ID,
description and creation time, every other entry and the counter, and write
the resulting store to the file. -/
theorem updateStatus_spec (lower : String → String) (t : tasks) (prog cmd a : String)
    (now : Time) (file : FileContent) (id : Int) (status : String)
    (hcmd : (lower cmd = "mark-done" ∧ status = "done") ∨
            (lower cmd = "mark-in-progress" ∧ status = "in-progress"))
    (ha : Atoi a = some id) :
    let r := dispatch lower t [prog, cmd, a] now file
    (id ∉ t.Db →
      r.out = [.stderr ("Task with id: " ++ toString id ++ " does not exist\n")] ∧
      r.encodes = 0 ∧ r.t = t ∧ r.file = file ∧ r.panic = none) ∧
    (∀ x, t.Db.lookup id = some x →
      r.t.Db.lookup id
        = some { ID := x.ID, Description := x.Description, Status := status,
                 CreatedAt := x.CreatedAt, UpdatedAt := now } ∧
      (∀ k, k ≠ id → r.t.Db.lookup k = t.Db.lookup k) ∧
      r.t.Db.keys = t.Db.keys ∧
      r.t.NextID = t.NextID ∧
      r.encodes = 1 ∧ r.file = r.t.encode ∧ Loads (some r.file) r.t ∧ r.panic = none) := by
  intro r
  have hc : lower cmd = "mark-done" ∨ lower cmd = "mark-in-progress" := by
    rcases hcmd with h | h
    · exact Or.inl h.1
    · exact Or.inr h.1
  have hst : (if lower cmd = "mark-done" then "done" else "in-progress") = status := by
    rcases hcmd with h | h
    · simp [h.1, h.2]
    · simp [h.1, h.2]
  have h : r = t.updateStatus lower [prog, cmd, a] now file :=
    dispatch_updateStatus lower t prog cmd [a] now file hc
  rw [h]
  constructor
  · intro hid
    rw [updateStatus_absent lower t prog cmd a now file id ha (Finmap.lookup_eq_none.mpr hid)]
    simp [Run.quit]
  · intro x hx
    have hid : id ∈ t.Db := Finmap.mem_iff.mpr ⟨x, hx⟩
    rw [updateStatus_found lower t prog cmd a now file id x ha hx, hst]
    refine ⟨by simp, ?_, keys_insert_of_mem _ _ _ hid, rfl, rfl, rfl, Loads_encode _, rfl⟩
    intro k hk
    simp [Finmap.lookup_insert_of_ne _ hk]

theorem updateStatus_spec_witness :
    id "mark-done" = "mark-done" ∧ Atoi "1" = some 1 ∧
    (dispatch id oneTask ["tracker", "mark-done", "1"] ⟨200⟩ oneTask.encode).t.Db.lookup 1
      = some { ID := 1, Description := "buy milk", Status := "done",
               CreatedAt := ⟨100⟩, UpdatedAt := ⟨200⟩ } :=
  ⟨rfl, by decide,
    ((updateStatus_spec id oneTask "tracker" "mark-done" "1" ⟨200⟩ oneTask.encode 1 "done"
      (Or.inl ⟨rfl, rfl⟩) (by decide)).2 _ oneTask_lookup).1⟩

/-- C8: `list` without a filter writes the tasks of the store, one line each,
in strictly ascending order of the key they are stored under, every key exactly
once; with a filter `f` it writes exactly the sub-sequence of that listing whose
status equals `f`.  In a store that satisfies the data-model invariant (each
key is the ID of its task) the IDs of the listing are strictly ascending and
the listing holds exactly the tasks of the store. -/
theorem list_spec (lower : String → String) (t : tasks) (prog cmd f : String)
    (now : Time) (file : FileContent) (hcmd : lower cmd = "list") :
    (dispatch lower t [prog, cmd] now file).out = t.ordered.map Output.stdoutTask ∧
    (dispatch lower t [prog, cmd, f] now file).out
      = (t.ordered.filter fun x => x.Status = f).map Output.stdoutTask ∧
    (∃ ks : List Int, ks.Sorted (· < ·) ∧ (∀ k, k ∈ ks ↔ k ∈ t.Db) ∧
      ks.map (fun k => t.Db.lookup k) = t.ordered.map some) ∧
    (t.KeysAreIDs →
      (t.ordered.map task.ID).Sorted (· < ·) ∧
      ∀ x, x ∈ t.ordered ↔ t.Db.lookup x.ID = some x) := by
  refine ⟨?_, ?_, ?_, ?_⟩
  · rw [dispatch_list lower t prog cmd [] now file hcmd]
    simp [tasks.list, Run.quit]
  · rw [dispatch_list lower t prog cmd [f] now file hcmd]
    simp [tasks.list, Run.quit, eq_comm]
  · refine ⟨sortInts t.Db.keys.val, sortedKeys_sorted _, mem_sortedKeys t.Db, ?_⟩
    exact map_lookup_eq_map_some _ _ fun k hk =>
      Finmap.mem_iff.mp ((mem_sortedKeys t.Db k).mp hk)
  · intro hinv
    have hmap : t.ordered.map task.ID = sortInts t.Db.keys.val := by
      apply map_ID_filterMap
      intro k hk
      obtain ⟨x, hx⟩ := Finmap.mem_iff.mp ((mem_sortedKeys t.Db k).mp hk)
      exact ⟨x, hx, hinv k x hx⟩
    refine ⟨by rw [hmap]; exact sortedKeys_sorted _, ?_⟩
    intro x
    rw [mem_ordered]
    constructor
    · rintro ⟨k, hk⟩
      rw [hinv k x hk]
      exact hk
    · intro hx
      exact ⟨_, hx⟩

theorem list_spec_witness :
    id "list" = "list" ∧ threeTasks.KeysAreIDs ∧
    (dispatch id threeTasks ["tracker", "list"] ⟨200⟩ threeTasks.encode).out
      = [Output.stdoutTask
           { ID := 1, Description := "buy milk", Status := "done",
             CreatedAt := ⟨100⟩, UpdatedAt := ⟨150⟩ },
         Output.stdoutTask
           { ID := 2, Description := "walk dog", Status := "todo",
             CreatedAt := ⟨110⟩, UpdatedAt := Time.zero },
         Output.stdoutTask
           { ID := 3, Description := "call mom", Status := "done",
             CreatedAt := ⟨120⟩, UpdatedAt := ⟨160⟩ }] ∧
    (dispatch id threeTasks ["tracker", "list", "done"] ⟨200⟩ threeTasks.encode).out
      = [Output.stdoutTask
           { ID := 1, Description := "buy milk", Status := "done",
             CreatedAt := ⟨100⟩, UpdatedAt := ⟨150⟩ },
         Output.stdoutTask
           { ID := 3, Description := "call mom", Status := "done",
             CreatedAt := ⟨120⟩, UpdatedAt := ⟨160⟩ }] ∧
    (threeTasks.ordered.map task.ID).Sorted (· < ·) :=
  have hinv : threeTasks.KeysAreIDs :=
    forall_lookup_of_keys threeTasks.Db (fun k x => x.ID = k) (by decide)
  ⟨rfl, hinv, by decide, by decide,
    ((list_spec id threeTasks "tracker" "list" "done" ⟨200⟩ threeTasks.encode rfl).2.2.2
      hinv).1⟩

/-- C8, where the claim fails: on a store whose keys are not the IDs of its
tasks (key 3 holds the task with ID 9, key 5 the task with ID 2; `db.json` can
hold such a store and it loads), `list` writes the task with ID 9 before the
task with ID 2: the listing is in ascending order of key, not of ID. -/
theorem list_orders_by_key :
    Loads (some keysOff.encode) keysOff ∧
    (Track id ["tracker", "list"] ⟨200⟩ (some keysOff.encode)).out
      = [Output.stdoutTask
           { ID := 9, Description := "buy milk", Status := "todo",
             CreatedAt := ⟨100⟩, UpdatedAt := Time.zero },
         Output.stdoutTask
           { ID := 2, Description := "walk dog", Status := "todo",
             CreatedAt := ⟨110⟩, UpdatedAt := Time.zero }] ∧
    ¬ (keysOff.ordered.map task.ID).Sorted (· < ·) := by
  decide

/-- C9: after `add` commands with descriptions `d1 .. dn`, run one after the
other from the empty store, `list` writes exactly `n` task lines, in this
order: the `i`-th is the task with ID `i`, description `di`, status `todo`
(created at the time of its `add`, never updated).  The number `n` is below
`2 ^ 63`, the number of `add`s after which the `int` counter would wrap. -/
theorem add_then_list (lower : String → String) (prog cmd lcmd : String)
    (ds : List (String × Time)) (now : Time) (disk : Option FileContent)
    (hadd : lower cmd = "add") (hlist : lower lcmd = "list")
    (hdisk : Loads disk { NextID := 0, Db := ∅ }) (hn : ds.length < 2 ^ 63) :
    (Track lower [prog, lcmd] now
        (sessionDisk lower disk (ds.map fun d => ([prog, cmd, d.1], d.2)))).out
      = ds.enum.map fun p =>
          Output.stdoutTask
            { ID := (p.1 : Int) + 1, Description := p.2.1, Status := "todo",
              CreatedAt := p.2.2, UpdatedAt := Time.zero } := by
  have h := adds_then_list lower prog cmd lcmd now hadd hlist ds disk _ [] 0 hdisk
    Spells_empty rfl (by omega)
  rw [h, List.nil_append, List.map_map]
  rfl

theorem add_then_list_witness :
    id "add" = "add" ∧ id "list" = "list" ∧ Loads none { NextID := 0, Db := ∅ } ∧
    [("buy milk", (⟨1⟩ : Time)), ("walk dog", ⟨2⟩)].length < 2 ^ 63 ∧
    (Track id ["tracker", "list"] ⟨9⟩
        (sessionDisk id none
          [(["tracker", "add", "buy milk"], ⟨1⟩), (["tracker", "add", "walk dog"], ⟨2⟩)])).out
      = [Output.stdoutTask
           { ID := 1, Description := "buy milk", Status := "todo",
             CreatedAt := ⟨1⟩, UpdatedAt := Time.zero },
         Output.stdoutTask
           { ID := 2, Description := "walk dog", Status := "todo",
             CreatedAt := ⟨2⟩, UpdatedAt := Time.zero }] :=
  ⟨rfl, rfl, Loads_none, by decide,
    add_then_list id "tracker" "add" "list" [("buy milk", ⟨1⟩), ("walk dog", ⟨2⟩)] ⟨9⟩ none
      rfl rfl Loads_none (by decide)⟩

/-- C10 (as the code has it): on a store whose tasks all have status `todo`,
after `mark-done` was run on each key of a set `S` of existing keys (in any
order, possibly more than once), `list done` writes exactly the tasks stored
under the keys in `S`, one for each key, in strictly ascending order of key,
each being the original task with status `done`; and `list todo` writes exactly
the untouched tasks under the other keys, so none of the marked ones.  In a
store where each key is the ID of its task, the IDs written by `list done` are
the members of `S` in strictly ascending order. -/
theorem markDone_then_list (lower : String → String) (prog mcmd lcmd : String) (t : tasks)
    (disk : Option FileContent) (marks : List (String × Time)) (now : Time)
    (hm : lower mcmd = "mark-done") (hl : lower lcmd = "list")
    (hdisk : Loads disk t)
    (htodo : ∀ k x, t.Db.lookup k = some x → x.Status = "todo")
    (hS : ∀ m ∈ marks, ∃ id, Atoi m.1 = some id ∧ id ∈ t.Db) :
    let S : Finset Int := (marks.filterMap fun m => Atoi m.1).toFinset
    let disk1 := sessionDisk lower disk (marks.map fun m => ([prog, mcmd, m.1], m.2))
    ∃ t1 : tasks, Loads disk1 t1 ∧ MarkedDone t t1 S ∧
      (Track lower [prog, lcmd, "done"] now disk1).out
        = ((sortInts S.val).filterMap fun k => t1.Db.lookup k).map Output.stdoutTask ∧
      (Track lower [prog, lcmd, "todo"] now disk1).out
        = ((sortInts (t.Db.keys \ S).val).filterMap fun k => t.Db.lookup k).map
            Output.stdoutTask ∧
      (∀ k ∈ S, ∀ x, t1.Db.lookup k = some x →
        Output.stdoutTask x ∉ (Track lower [prog, lcmd, "todo"] now disk1).out) ∧
      (sortInts S.val).Sorted (· < ·) ∧ (∀ k, k ∈ sortInts S.val ↔ k ∈ S) ∧
      (sortInts S.val).map (fun k => t1.Db.lookup k)
        = ((sortInts S.val).filterMap fun k => t1.Db.lookup k).map some ∧
      (t.KeysAreIDs →
        ((sortInts S.val).filterMap fun k => t1.Db.lookup k).map task.ID = sortInts S.val ∧
        (((sortInts S.val).filterMap fun k => t1.Db.lookup k).map task.ID).Sorted (· < ·)) := by
  intro S disk1
  obtain ⟨t1, hl1, hmd⟩ := marks_session lower prog mcmd t hm marks disk t ∅ hdisk
    (MarkedDone_refl t) hS
  rw [Finset.empty_union] at hmd
  have hmd : MarkedDone t t1 S := hmd
  have hl1 : Loads disk1 t1 := hl1
  obtain ⟨hkeys, hdone, hrest⟩ := hmd
  have hkeysEq : t1.Db.keys = t.Db.keys := by
    ext k
    rw [Finmap.mem_keys, Finmap.mem_keys]
    exact hkeys k
  have hsub : ∀ k ∈ S, k ∈ t1.Db := by
    intro k hk
    obtain ⟨_, x, _, hx, _⟩ := hdone k hk
    exact Finmap.mem_iff.mpr ⟨x, hx⟩
  have hstatus : ∀ k x, t1.Db.lookup k = some x →
      (k ∈ S → x.Status = "done") ∧ (k ∉ S → x.Status = "todo") := by
    intro k x hx
    constructor
    · intro hk
      obtain ⟨_, y, _, hy, hyd, _⟩ := hdone k hk
      rw [hx] at hy
      cases hy
      exact hyd
    · intro hk
      rw [hrest k hk] at hx
      exact htodo k x hx
  have hdoneOut := list_filter_out lower prog lcmd "done" now disk1 t1 hl hl1
  have htodoOut := list_filter_out lower prog lcmd "todo" now disk1 t1 hl hl1
  have hsorted : (sortInts S.val).Sorted (· < ·) := by
    rw [sortInts_eq]
    exact Finset.sort_sorted_lt _
  refine ⟨t1, hl1, ⟨hkeys, hdone, hrest⟩, ?_, ?_, ?_, hsorted, mem_sortInts S, ?_, ?_⟩
  · rw [hdoneOut]
    congr 1
    unfold tasks.ordered
    rw [filter_filterMap_keys _ _ (fun k => decide (k ∈ S)), sortInts_filter]
    · have hset : Finset.filter (fun k => k ∈ S) t1.Db.keys = S := by
        ext k
        rw [Finset.mem_filter, Finmap.mem_keys]
        exact ⟨fun h => h.2, fun h => ⟨hsub k h, h⟩⟩
      rw [hset]
    · intro k _ x hx
      by_cases hk : k ∈ S
      · simp [hk, (hstatus k x hx).1 hk]
      · simp [hk, (hstatus k x hx).2 hk]
  · rw [htodoOut]
    congr 1
    unfold tasks.ordered
    rw [filter_filterMap_keys _ _ (fun k => decide (k ∉ S)), sortInts_filter]
    · have hset : Finset.filter (fun k => k ∉ S) t1.Db.keys = t.Db.keys \ S := by
        ext k
        rw [Finset.mem_filter, Finset.mem_sdiff, hkeysEq]
      rw [hset]
      apply List.filterMap_congr
      intro k hk
      rw [mem_sortInts, Finset.mem_sdiff] at hk
      exact hrest k hk.2
    · intro k _ x hx
      by_cases hk : k ∈ S
      · simp [hk, (hstatus k x hx).1 hk]
      · simp [hk, (hstatus k x hx).2 hk]
  · intro k hk x hx hmem
    rw [htodoOut, List.mem_map] at hmem
    obtain ⟨y, hy, hyx⟩ := hmem
    have hyx2 : y = x := by injection hyx
    subst hyx2
    rw [List.mem_filter] at hy
    have h1 : "todo" = y.Status := of_decide_eq_true hy.2
    rw [(hstatus k y hx).1 hk] at h1
    exact absurd h1 (by decide)
  · exact map_lookup_eq_map_some _ _ fun k hk =>
      Finmap.mem_iff.mp (hsub k ((mem_sortInts S k).mp hk))
  · intro hinv
    have hids : ((sortInts S.val).filterMap fun k => t1.Db.lookup k).map task.ID
        = sortInts S.val := by
      apply map_ID_filterMap
      intro k hk
      rw [mem_sortInts] at hk
      obtain ⟨x0, x, hx0, hx, _, hid, _⟩ := hdone k hk
      exact ⟨x, hx, by rw [hid]; exact hinv k x0 hx0⟩
    exact ⟨hids, by rw [hids]; exact hsorted⟩

theorem markDone_then_list_witness :
    id "mark-done" = "mark-done" ∧ id "list" = "list" ∧
    Loads (some threeTodo.encode) threeTodo ∧
    (∀ k x, threeTodo.Db.lookup k = some x → x.Status = "todo") ∧
    (∀ m ∈ [("3", (⟨200⟩ : Time)), ("1", ⟨210⟩)], ∃ id, Atoi m.1 = some id ∧ id ∈ threeTodo.Db) ∧
    (Track id ["tracker", "list", "done"] ⟨300⟩
        (sessionDisk id (some threeTodo.encode)
          [(["tracker", "mark-done", "3"], ⟨200⟩), (["tracker", "mark-done", "1"], ⟨210⟩)])).out
      = [Output.stdoutTask
           { ID := 1, Description := "buy milk", Status := "done",
             CreatedAt := ⟨100⟩, UpdatedAt := ⟨210⟩ },
         Output.stdoutTask
           { ID := 3, Description := "call mom", Status := "done",
             CreatedAt := ⟨120⟩, UpdatedAt := ⟨200⟩ }] ∧
    (Track id ["tracker", "list", "todo"] ⟨300⟩
        (sessionDisk id (some threeTodo.encode)
          [(["tracker", "mark-done", "3"], ⟨200⟩), (["tracker", "mark-done", "1"], ⟨210⟩)])).out
      = [Output.stdoutTask
           { ID := 2, Description := "walk dog", Status := "todo",
             CreatedAt := ⟨110⟩, UpdatedAt := Time.zero }] ∧
    ∃ t1 : tasks,
      Loads (sessionDisk id (some threeTodo.encode)
        [(["tracker", "mark-done", "3"], ⟨200⟩), (["tracker", "mark-done", "1"], ⟨210⟩)]) t1 ∧
      (Track id ["tracker", "list", "done"] ⟨300⟩
        (sessionDisk id (some threeTodo.encode)
          [(["tracker", "mark-done", "3"], ⟨200⟩), (["tracker", "mark-done", "1"], ⟨210⟩)])).out
        = ((sortInts
              (([("3", (⟨200⟩ : Time)), ("1", ⟨210⟩)].filterMap
                fun m => Atoi m.1).toFinset).val).filterMap
            fun k => t1.Db.lookup k).map Output.stdoutTask :=
  have htodo : ∀ k x, threeTodo.Db.lookup k = some x → x.Status = "todo" :=
    forall_lookup_of_keys threeTodo.Db (fun _ x => x.Status = "todo") (by decide)
  have hS : ∀ m ∈ [("3", (⟨200⟩ : Time)), ("1", ⟨210⟩)],
      ∃ id, Atoi m.1 = some id ∧ id ∈ threeTodo.Db := by
    intro m hm
    simp only [List.mem_cons, List.mem_singleton, List.not_mem_nil, or_false] at hm
    rcases hm with rfl | rfl
    · exact ⟨3, by decide, (mem_sortedKeys threeTodo.Db 3).mp (by decide)⟩
    · exact ⟨1, by decide, (mem_sortedKeys threeTodo.Db 1).mp (by decide)⟩
  ⟨rfl, rfl, Loads_encode _, htodo, hS, by decide, by decide,
    (markDone_then_list id "tracker" "mark-done" "list" threeTodo (some threeTodo.encode)
      [("3", ⟨200⟩), ("1", ⟨210⟩)] ⟨300⟩ rfl rfl (Loads_encode _) htodo hS).imp
      fun _ h => ⟨h.1, h.2.2.1⟩⟩

/-- C10, where the claim fails: on a store whose keys are not the IDs of its
tasks (key 3 holds the task with ID 9, key 5 the task with ID 2, both to do),
`mark-done 9` finds no task and marks nothing, so `list done` writes nothing
although a task with ID 9 exists; and after `mark-done 3` and `mark-done 5`,
`list done` writes the task with ID 9 before the task with ID 2. -/
theorem markDone_goes_by_key :
    Loads (some keysOff.encode) keysOff ∧
    (Track id ["tracker", "mark-done", "9"] ⟨200⟩ (some keysOff.encode)).out
      = [.stderr "Task with id: 9 does not exist\n"] ∧
    (Track id ["tracker", "list", "done"] ⟨300⟩
        (sessionDisk id (some keysOff.encode) [(["tracker", "mark-done", "9"], ⟨200⟩)])).out
      = [] ∧
    (Track id ["tracker", "list", "done"] ⟨300⟩
        (sessionDisk id (some keysOff.encode)
          [(["tracker", "mark-done", "3"], ⟨200⟩), (["tracker", "mark-done", "5"], ⟨210⟩)])).out
      = [Output.stdoutTask
           { ID := 9, Description := "buy milk", Status := "done",
             CreatedAt := ⟨100⟩, UpdatedAt := ⟨200⟩ },
         Output.stdoutTask
           { ID := 2, Description := "walk dog", Status := "done",
             CreatedAt := ⟨110⟩, UpdatedAt := ⟨210⟩ }] := by
  decide

/-! ## How an invocation changes the task under a key -/

theorem lookup_insert_cases (db : TaskMap) (id k : Int) (x y : task)
    (h : (db.insert id x).lookup k = some y) :
    (k = id ∧ y = x) ∨ (k ≠ id ∧ db.lookup k = some y) := by
  by_cases hk : k = id
  · subst hk
    rw [Finmap.lookup_insert] at h
    exact Or.inl ⟨rfl, (Option.some.inj h).symm⟩
  · rw [Finmap.lookup_insert_of_ne _ hk] at h
    exact Or.inr ⟨hk, h⟩

theorem Descends_same (t t1 : tasks) (k : Int) (x1 : task) (h : t.Db.lookup k = some x1) :
    Descends t t1 k x1 :=
  Or.inl ⟨x1, h, rfl, Or.inl rfl⟩

theorem add_lookup (t : tasks) (args : List String) (now : Time) (file : FileContent)
    (k : Int) (x1 : task) (h : (t.add args now file).t.Db.lookup k = some x1) :
    Descends t (t.add args now file).t k x1 := by
  generalize hr : t.add args now file = r at h ⊢
  unfold tasks.add at hr
  split at hr
  · subst hr
    exact Descends_same _ _ _ _ h
  · split at hr
    · subst hr
      exact Descends_same _ _ _ _ h
    · subst hr
      rcases lookup_insert_cases _ _ _ _ _ h with ⟨hk, hx⟩ | ⟨_, hx⟩
      · right
        subst hx
        exact ⟨hk, rfl, hk.symm, rfl⟩
      · exact Descends_same _ _ _ _ hx

theorem update_lookup (t : tasks) (args : List String) (now : Time) (file : FileContent)
    (k : Int) (x1 : task) (h : (t.update args now file).t.Db.lookup k = some x1) :
    Descends t (t.update args now file).t k x1 := by
  generalize hr : t.update args now file = r at h ⊢
  unfold tasks.update at hr
  repeat' split at hr
  all_goals subst hr
  all_goals first
    | exact Descends_same _ _ _ _ h
    | (rename_i x hx _ _ _
       rcases lookup_insert_cases _ _ _ _ _ h with ⟨hk, hy⟩ | ⟨_, hy⟩
       · subst hk hy
         exact Or.inl ⟨x, hx, rfl, Or.inl rfl⟩
       · exact Descends_same _ _ _ _ hy)

theorem delete_lookup (t : tasks) (args : List String) (file : FileContent)
    (k : Int) (x1 : task) (h : (t.delete args file).t.Db.lookup k = some x1) :
    Descends t (t.delete args file).t k x1 := by
  generalize hr : t.delete args file = r at h ⊢
  unfold tasks.delete at hr
  repeat' split at hr
  all_goals subst hr
  all_goals first
    | exact Descends_same _ _ _ _ h
    | (rename_i id _
       have hk : k ≠ id := by
         intro hk
         subst hk
         simp [Finmap.lookup_erase] at h
       simp only [Finmap.lookup_erase_ne hk] at h
       exact Descends_same _ _ _ _ h)

theorem updateStatus_lookup (lower : String → String) (t : tasks) (args : List String)
    (now : Time) (file : FileContent)
    (k : Int) (x1 : task) (h : (t.updateStatus lower args now file).t.Db.lookup k = some x1) :
    Descends t (t.updateStatus lower args now file).t k x1 := by
  generalize hr : t.updateStatus lower args now file = r at h ⊢
  unfold tasks.updateStatus at hr
  repeat' split at hr
  all_goals subst hr
  all_goals first
    | exact Descends_same _ _ _ _ h
    | (rcases lookup_insert_cases _ _ _ _ _ h with ⟨hk, hy⟩ | ⟨_, hy⟩
       · subst hk hy
         have hx0 := ‹Finmap.lookup k t.Db = some _›
         exact Or.inl ⟨_, hx0, rfl, by simp⟩
       · exact Descends_same _ _ _ _ hy)

theorem dispatch_lookup (lower : String → String) (t : tasks) (args : List String)
    (now : Time) (file : FileContent) (k : Int) (x1 : task)
    (h : (dispatch lower t args now file).t.Db.lookup k = some x1) :
    Descends t (dispatch lower t args now file).t k x1 := by
  generalize hr : dispatch lower t args now file = r at h ⊢
  unfold dispatch at hr
  repeat' split at hr
  all_goals subst hr
  · exact Descends_same _ _ _ _ h
  · exact add_lookup _ _ _ _ _ _ h
  · exact update_lookup _ _ _ _ _ _ h
  · exact delete_lookup _ _ _ _ _ h
  · exact updateStatus_lookup _ _ _ _ _ _ _ h
  · rw [(list_effect t args file).2.1] at h ⊢
    exact Descends_same _ _ _ _ h
  · exact Descends_same _ _ _ _ h

theorem dispatch_NextID_le (lower : String → String) (t : tasks) (args : List String)
    (now : Time) (file : FileContent) (hmin : minInt ≤ t.NextID) (hmax : t.NextID < maxInt) :
    t.NextID ≤ (dispatch lower t args now file).t.NextID ∧
    (dispatch lower t args now file).t.NextID ≤ t.NextID + 1 := by
  have hw := wrapInt_succ t.NextID hmin hmax
  rcases dispatch_effect lower t args now file with h | h | h
  · rw [h.2.1]; omega
  · rw [h.2.2.1]; omega
  · rw [h.2.2.1, hw]; omega

/-! ## Sessions and reachable stores -/

theorem Loads_unique (disk : Option FileContent) (a b : tasks) (ha : Loads disk a)
    (hb : Loads disk b) : a = b := by
  unfold Loads at ha hb
  rw [ha] at hb
  injection hb with _ h2
  injection h2

theorem sessionDisk_invariant (lower : String → String) (P : tasks → Prop)
    (hstep : ∀ t args now file, P t → P (dispatch lower t args now file).t)
    (invs : List (List String × Time)) :
    ∀ (disk : Option FileContent) (t0 : tasks), Loads disk t0 → P t0 →
      ∀ t, Loads (sessionDisk lower disk invs) t → P t := by
  induction invs with
  | nil =>
    intro disk t0 h0 hp t ht
    rw [Loads_unique disk t t0 ht h0]
    exact hp
  | cons inv rest ih =>
    intro disk t0 h0 hp t ht
    obtain ⟨args, now⟩ := inv
    have hl := (Track_step lower args now disk t0 h0).1
    refine ih _ _ hl ?_ t ht
    rw [Track_of_Loads lower args now disk t0 h0]
    exact hstep _ _ _ _ hp

theorem Reachable_induction (lower : String → String) (P : tasks → Prop)
    (h0 : P { NextID := 0, Db := ∅ })
    (hstep : ∀ t args now file, P t → P (dispatch lower t args now file).t)
    (t : tasks) (h : Reachable lower t) : P t := by
  obtain ⟨disk, invs, hd, ht⟩ := h
  exact sessionDisk_invariant lower P hstep invs disk _ hd h0 t ht

theorem session_Loads (lower : String → String) (invs : List (List String × Time)) :
    ∀ (disk : Option FileContent) (t0 : tasks), Loads disk t0 →
      ∀ r ∈ session lower disk invs, Loads (some r.file) r.t := by
  induction invs with
  | nil =>
    intro _ _ _ r hr
    cases hr
  | cons inv rest ih =>
    intro disk t0 hd r hr
    obtain ⟨args, now⟩ := inv
    have hl := (Track_step lower args now disk t0 hd).1
    rw [session, List.mem_cons] at hr
    rcases hr with rfl | hr
    · exact hl
    · exact ih _ _ hl r hr

/-! ## Command lines in error, and panics -/

theorem update_aborts (t : tasks) (prog cmd : String) (rest : List String) (now : Time)
    (file : FileContent)
    (h : rest.length ≠ 2 ∨ (∃ a more, rest = a :: more ∧ Atoi a = none) ∨
      ∃ a more id, rest = a :: more ∧ Atoi a = some id ∧ id ∉ t.Db) :
    ∃ out, t.update (prog :: cmd :: rest) now file = Run.quit t file out := by
  unfold tasks.update
  by_cases hlen : (prog :: cmd :: rest).length ≠ 4
  · exact ⟨_, if_pos hlen⟩
  · rw [if_neg hlen]
    obtain ⟨a, d, rfl⟩ : ∃ a d, rest = [a, d] := by
      match rest, hlen with
      | [a, d], _ => exact ⟨a, d, rfl⟩
      | [], h => simp at h
      | [_], h => simp at h
      | _ :: _ :: _ :: _, h => simp at h
    rcases h with h | ⟨a1, more, he, ha⟩ | ⟨a1, more, id, he, ha, hid⟩
    · simp at h
    · injection he with h1 _
      subst h1
      simp [ha]
    · injection he with h1 _
      subst h1
      simp [ha, Finmap.lookup_eq_none.mpr hid]

theorem delete_aborts (t : tasks) (prog cmd : String) (rest : List String)
    (file : FileContent)
    (h : rest.length ≠ 1 ∨ ∃ a more, rest = a :: more ∧ Atoi a = none) :
    ∃ out, t.delete (prog :: cmd :: rest) file = Run.quit t file out := by
  unfold tasks.delete
  by_cases hlen : (prog :: cmd :: rest).length ≠ 3
  · exact ⟨_, if_pos hlen⟩
  · rw [if_neg hlen]
    obtain ⟨a, rfl⟩ : ∃ a, rest = [a] := by
      match rest, hlen with
      | [a], _ => exact ⟨a, rfl⟩
      | [], h => simp at h
      | _ :: _ :: _, h => simp at h
    rcases h with h | ⟨a1, more, he, ha⟩
    · simp at h
    · injection he with h1 _
      subst h1
      simp [ha]

theorem updateStatus_aborts (lower : String → String) (t : tasks) (prog cmd : String)
    (rest : List String) (now : Time) (file : FileContent)
    (h : rest.length ≠ 1 ∨ (∃ a more, rest = a :: more ∧ Atoi a = none) ∨
      ∃ a more id, rest = a :: more ∧ Atoi a = some id ∧ id ∉ t.Db) :
    ∃ out, t.updateStatus lower (prog :: cmd :: rest) now file = Run.quit t file out := by
  unfold tasks.updateStatus
  by_cases hlen : (prog :: cmd :: rest).length ≠ 3
  · exact ⟨_, if_pos hlen⟩
  · rw [if_neg hlen]
    obtain ⟨a, rfl⟩ : ∃ a, rest = [a] := by
      match rest, hlen with
      | [a], _ => exact ⟨a, rfl⟩
      | [], h => simp at h
      | _ :: _ :: _, h => simp at h
    rcases h with h | ⟨a1, more, he, ha⟩ | ⟨a1, more, id, he, ha, hid⟩
    · simp at h
    · injection he with h1 _
      subst h1
      simp [ha]
    · injection he with h1 _
      subst h1
      simp [ha, Finmap.lookup_eq_none.mpr hid]

theorem dispatch_aborts (lower : String → String) (t : tasks) (args : List String)
    (now : Time) (file : FileContent) (h : ErrorLine lower t args) :
    ∃ out, dispatch lower t args now file = Run.quit t file out := by
  obtain ⟨prog, cmd, rest, rfl, h⟩ := h
  rcases h with ⟨hc, hbad⟩ | ⟨hc, hmiss⟩ | ⟨hc, hn⟩ | ⟨hc, hn⟩ | ⟨hc, hn⟩ | ⟨hc, hn⟩ |
    ⟨hc, hn⟩ | hc
  · rcases hc with hc | hc | hc | hc
    · simp only [dispatch, List.getElem?_cons_succ, List.getElem?_cons_zero, hc]
      exact update_aborts t prog cmd rest now file (Or.inr (Or.inl hbad))
    · rw [dispatch_delete lower t prog cmd rest now file hc]
      exact delete_aborts t prog cmd rest file (Or.inr hbad)
    · rw [dispatch_updateStatus lower t prog cmd rest now file (Or.inr hc)]
      exact updateStatus_aborts lower t prog cmd rest now file (Or.inr (Or.inl hbad))
    · rw [dispatch_updateStatus lower t prog cmd rest now file (Or.inl hc)]
      exact updateStatus_aborts lower t prog cmd rest now file (Or.inr (Or.inl hbad))
  · rcases hc with hc | hc | hc
    · simp only [dispatch, List.getElem?_cons_succ, List.getElem?_cons_zero, hc]
      exact update_aborts t prog cmd rest now file (Or.inr (Or.inr hmiss))
    · rw [dispatch_updateStatus lower t prog cmd rest now file (Or.inr hc)]
      exact updateStatus_aborts lower t prog cmd rest now file (Or.inr (Or.inr hmiss))
    · rw [dispatch_updateStatus lower t prog cmd rest now file (Or.inl hc)]
      exact updateStatus_aborts lower t prog cmd rest now file (Or.inr (Or.inr hmiss))
  · rw [dispatch_add lower t prog cmd rest now file hc]
    unfold tasks.add
    exact ⟨_, if_pos (by simpa using hn)⟩
  · simp only [dispatch, List.getElem?_cons_succ, List.getElem?_cons_zero, hc]
    exact update_aborts t prog cmd rest now file (Or.inl hn)
  · rw [dispatch_delete lower t prog cmd rest now file hc]
    exact delete_aborts t prog cmd rest file (Or.inl hn)
  · rw [dispatch_updateStatus lower t prog cmd rest now file (hc.symm)]
    exact updateStatus_aborts lower t prog cmd rest now file (Or.inl hn)
  · rw [dispatch_list lower t prog cmd rest now file hc]
    unfold tasks.list
    exact ⟨_, if_pos (by simp only [List.length_cons]; omega)⟩
  · obtain ⟨h1, h2, h3, h4, h5, h6⟩ := hc
    refine ⟨[.stdout ("Unrecognized program argument " ++ cmd ++ "\n")], ?_⟩
    simp [dispatch, h1, h2, h3, h4, h5, h6]

theorem dispatch_no_panic (lower : String → String) (t : tasks) (args : List String)
    (now : Time) (file : FileContent) (h : 2 ≤ args.length) :
    (dispatch lower t args now file).panic = none := by
  generalize hr : dispatch lower t args now file = r
  unfold dispatch tasks.add tasks.update tasks.delete tasks.updateStatus tasks.list at hr
  repeat' split at hr
  all_goals subst hr
  all_goals first
    | rfl
    | (have hnone := ‹args[_]? = none›
       rw [List.getElem?_eq_none_iff] at hnone
       omega)
    | (rename_i h0
       cases h0)

theorem Track_no_panic (lower : String → String) (args : List String) (now : Time)
    (disk : Option FileContent) (h : 2 ≤ args.length) :
    (Track lower args now disk).panic = none := by
  unfold Track
  split
  · rfl
  · exact dispatch_no_panic lower _ args now _ h

/-! ## Statuses never go back to `todo` -/

theorem Succeeds_step (lower : String → String) (t : tasks) (args : List String)
    (now : Time) (file : FileContent) (hmin : minInt ≤ t.NextID) (hmax : t.NextID < maxInt) :
    Succeeds t (dispatch lower t args now file).t := by
  refine ⟨(dispatch_NextID_le lower t args now file hmin hmax).1, ?_⟩
  intro k hk x1 hx1
  rcases dispatch_lookup lower t args now file k x1 hx1 with ⟨x, hx, _, hs⟩ | ⟨hk1, _⟩
  · exact ⟨x, hx, hs⟩
  · rw [wrapInt_succ t.NextID hmin hmax] at hk1
    omega

theorem Succeeds_trans (a b c : tasks) (hab : Succeeds a b) (hbc : Succeeds b c) :
    Succeeds a c := by
  refine ⟨le_trans hab.1 hbc.1, ?_⟩
  intro k hk x2 hx2
  obtain ⟨x1, hx1, hs1⟩ := hbc.2 k (le_trans hk hab.1) x2 hx2
  obtain ⟨x, hx, hs⟩ := hab.2 k hk x1 hx1
  refine ⟨x, hx, ?_⟩
  rcases hs1 with hs1 | hs1 | hs1
  · rw [hs1]; exact hs
  · exact Or.inr (Or.inl hs1)
  · exact Or.inr (Or.inr hs1)

theorem KeysWithinCounter_step (lower : String → String) (t : tasks) (args : List String)
    (now : Time) (file : FileContent) (hmin : minInt ≤ t.NextID) (hmax : t.NextID < maxInt)
    (h : t.KeysWithinCounter) :
    (dispatch lower t args now file).t.KeysWithinCounter := by
  intro k hk
  have hle := (dispatch_NextID_le lower t args now file hmin hmax).1
  obtain ⟨x1, hx1⟩ := Finmap.mem_iff.mp hk
  rcases dispatch_lookup lower t args now file k x1 hx1 with ⟨x, hx, _⟩ | ⟨hk1, hn, _⟩
  · have := h k (Finmap.mem_iff.mpr ⟨x, hx⟩)
    omega
  · omega

theorem session_Succeeds (lower : String → String) (invs : List (List String × Time)) :
    ∀ (disk : Option FileContent) (t0 : tasks), Loads disk t0 → minInt ≤ t0.NextID →
      t0.NextID + invs.length ≤ maxInt →
      ∀ b ∈ (session lower disk invs).map Run.t, Succeeds t0 b := by
  induction invs with
  | nil =>
    intro _ _ _ _ _ b hb
    cases hb
  | cons inv rest ih =>
    intro disk t0 hd hmin hmax b hb
    obtain ⟨args, now⟩ := inv
    have hlen : ((args, now) :: rest).length = rest.length + 1 := rfl
    rw [hlen] at hmax
    push_cast at hmax
    have hlt : t0.NextID < maxInt := by omega
    have hl := (Track_step lower args now disk t0 hd).1
    obtain ⟨hge, hle, _, _⟩ := Track_counter lower args now disk t0 hd hmin hlt
    have hstep : Succeeds t0 (Track lower args now disk).t := by
      rw [Track_of_Loads lower args now disk t0 hd]
      exact Succeeds_step lower t0 args now _ hmin hlt
    rw [session, List.map_cons, List.mem_cons] at hb
    rcases hb with rfl | hb
    · exact hstep
    · exact Succeeds_trans _ _ _ hstep (ih _ _ hl (by omega) (by omega) b hb)

theorem not_todo_of_Succeeds (a b : tasks) (ha : a.KeysWithinCounter) (h : Succeeds a b)
    (k : Int) (x x1 : task) (hx : a.Db.lookup k = some x) (hs : x.Status ≠ "todo")
    (hx1 : b.Db.lookup k = some x1) : x1.Status ≠ "todo" := by
  obtain ⟨y, hy, hst⟩ := h.2 k (ha k (Finmap.mem_iff.mpr ⟨x, hx⟩)) x1 hx1
  rw [hx] at hy
  cases hy
  rcases hst with hst | hst | hst
  · rw [hst]; exact hs
  · rw [hst]; decide
  · rw [hst]; decide

theorem session_never_todo (lower : String → String) (invs : List (List String × Time)) :
    ∀ (disk : Option FileContent) (t0 : tasks), Loads disk t0 → t0.KeysWithinCounter →
      minInt ≤ t0.NextID → t0.NextID + invs.length ≤ maxInt →
      (t0 :: (session lower disk invs).map Run.t).Pairwise fun earlier later =>
        ∀ k x x1, earlier.Db.lookup k = some x → x.Status ≠ "todo" →
          later.Db.lookup k = some x1 → x1.Status ≠ "todo" := by
  induction invs with
  | nil =>
    intro _ _ _ _ _ _
    simp [session]
  | cons inv rest ih =>
    intro disk t0 hd hb hmin hmax
    obtain ⟨args, now⟩ := inv
    have hmax0 := hmax
    have hlen : ((args, now) :: rest).length = rest.length + 1 := rfl
    rw [hlen] at hmax
    push_cast at hmax
    have hlt : t0.NextID < maxInt := by omega
    have hl := (Track_step lower args now disk t0 hd).1
    obtain ⟨hge, hle, _, _⟩ := Track_counter lower args now disk t0 hd hmin hlt
    have hb1 : (Track lower args now disk).t.KeysWithinCounter := by
      rw [Track_of_Loads lower args now disk t0 hd]
      exact KeysWithinCounter_step lower t0 args now _ hmin hlt hb
    rw [List.pairwise_cons]
    refine ⟨?_, ?_⟩
    · intro b hbm k x x1 hx hs hx1
      exact not_todo_of_Succeeds t0 b hb
        (session_Succeeds lower _ disk t0 hd hmin hmax0 b hbm) k x x1 hx hs hx1
    · rw [session, List.map_cons]
      exact ih _ _ hl hb1 (by omega) (by omega)

theorem session_counter_bounds (lower : String → String)
    (invs : List (List String × Time)) :
    ∀ (disk : Option FileContent) (t0 : tasks), Loads disk t0 → 0 ≤ t0.NextID →
      (∀ k, k ∈ t0.Db → 1 ≤ k ∧ k ≤ t0.NextID) → t0.NextID + invs.length ≤ maxInt →
      ∀ t, Loads (sessionDisk lower disk invs) t →
        0 ≤ t.NextID ∧ (∀ k, k ∈ t.Db → 1 ≤ k ∧ k ≤ t.NextID) ∧
        t.NextID ≤ t0.NextID + invs.length := by
  induction invs with
  | nil =>
    intro disk t0 h0 hn hk _ t ht
    rw [Loads_unique disk t t0 ht h0]
    exact ⟨hn, hk, by simp⟩
  | cons inv rest ih =>
    intro disk t0 h0 hn hk hmax t ht
    obtain ⟨args, now⟩ := inv
    have hlen : ((args, now) :: rest).length = rest.length + 1 := rfl
    rw [hlen] at hmax ⊢
    push_cast at hmax ⊢
    have hmin : minInt ≤ t0.NextID := le_trans (by decide) hn
    have hlt : t0.NextID < maxInt := by omega
    have hl := (Track_step lower args now disk t0 h0).1
    obtain ⟨hge, hle, _, _⟩ := Track_counter lower args now disk t0 h0 hmin hlt
    have hk1 : ∀ k, k ∈ (Track lower args now disk).t.Db →
        1 ≤ k ∧ k ≤ (Track lower args now disk).t.NextID := by
      intro k hmem
      rw [Track_of_Loads lower args now disk t0 h0] at hmem hge ⊢
      obtain ⟨x1, hx1⟩ := Finmap.mem_iff.mp hmem
      rcases dispatch_lookup lower t0 args now _ k x1 hx1 with ⟨x, hx, _⟩ | ⟨hk1, hn1, _⟩
      · have := hk k (Finmap.mem_iff.mpr ⟨x, hx⟩)
        omega
      · rw [wrapInt_succ t0.NextID hmin hlt] at hk1 hn1
        omega
    obtain ⟨h1, h2, h3⟩ := ih _ _ hl (by omega) hk1 (by omega) t ht
    exact ⟨h1, h2, by omega⟩

theorem oneTask_Reachable : Reachable id oneTask :=
  ⟨none, [(["tracker", "add", "buy milk"], ⟨100⟩)], Loads_none, by decide⟩

theorem oneTask_KeysWithinCounter : oneTask.KeysWithinCounter := by
  intro k hk
  rcases Finmap.mem_insert.mp hk with h | h
  · rw [h]
    decide
  · exact absurd h Finmap.not_mem_empty

/-! ## The claims, continued -/

/-- C11: round trip.  Loading the file that `encode` writes for a store gives
no error and that very store: the same counter and the same map, hence every
task with the same ID, description, status, creation and updated time.  This
holds for every store; and through any sequence of invocations from the empty
store, the file each invocation leaves loads as the store it left in memory. -/
theorem load_persist_roundtrip (lower : String → String) :
    (∀ t : tasks,
      tasks.initializeTasks { NextID := 0, Db := ∅ } (some t.encode) = (none, t, t.encode)) ∧
    (∀ (disk : Option FileContent) (invs : List (List String × Time)),
      Loads disk { NextID := 0, Db := ∅ } →
      ∀ r ∈ session lower disk invs,
        tasks.initializeTasks { NextID := 0, Db := ∅ } (some r.file) = (none, r.t, r.file)) :=
  ⟨fun t => Loads_encode t, fun disk invs hd r hr => session_Loads lower invs disk _ hd r hr⟩

theorem load_persist_roundtrip_witness :
    Loads none { NextID := 0, Db := ∅ } ∧
    tasks.initializeTasks { NextID := 0, Db := ∅ } (some oneTask.encode)
      = (none, oneTask, oneTask.encode) ∧
    tasks.initializeTasks { NextID := 0, Db := ∅ }
        (some (Track id ["tracker", "add", "buy milk"] ⟨100⟩ none).file)
      = (none, (Track id ["tracker", "add", "buy milk"] ⟨100⟩ none).t,
          (Track id ["tracker", "add", "buy milk"] ⟨100⟩ none).file) :=
  ⟨Loads_none, (load_persist_roundtrip id).1 oneTask,
    (load_persist_roundtrip id).2 none [(["tracker", "add", "buy milk"], ⟨100⟩)] Loads_none _
      (List.mem_cons_self _ _)⟩

/-- C12: a command line that is in error (an ID that is not a valid integer, a
missing task for `update` or the mark commands, a wrong number of arguments, an
unrecognised command word) makes the command return without reaching `encode`:
the store in memory and the content of the file are what they were.  As a whole
invocation on a disk that loads as the store, the file afterwards still loads
as that store, its content unchanged (an absent file having been created empty
by the load). -/
theorem error_line_no_persist (lower : String → String) (t : tasks) (args : List String)
    (now : Time) (file : FileContent) (h : ErrorLine lower t args) :
    (dispatch lower t args now file).encodes = 0 ∧
    (dispatch lower t args now file).t = t ∧
    (dispatch lower t args now file).file = file ∧
    (dispatch lower t args now file).panic = none ∧
    (∀ disk, Loads disk t →
      (Track lower args now disk).encodes = 0 ∧
      (Track lower args now disk).file = disk.getD .empty ∧
      Loads (some (Track lower args now disk).file) t) := by
  obtain ⟨out, ho⟩ := dispatch_aborts lower t args now file h
  refine ⟨by rw [ho]; rfl, by rw [ho]; rfl, by rw [ho]; rfl, by rw [ho]; rfl, ?_⟩
  intro disk hd
  obtain ⟨out2, ho2⟩ := dispatch_aborts lower t args now (disk.getD .empty) h
  rw [Track_of_Loads lower args now disk t hd, ho2]
  exact ⟨rfl, rfl, Loads_getD disk t hd⟩

theorem error_line_no_persist_witness :
    ErrorLine id oneTask ["tracker", "update", "7", "x"] ∧
    (dispatch id oneTask ["tracker", "update", "7", "x"] ⟨200⟩ oneTask.encode).encodes = 0 ∧
    (dispatch id oneTask ["tracker", "update", "7", "x"] ⟨200⟩ oneTask.encode).file
      = oneTask.encode :=
  have h7 : (7 : Int) ∉ oneTask.Db := by
    simp [oneTask, Finmap.mem_insert, Finmap.not_mem_empty]
  have he : ErrorLine id oneTask ["tracker", "update", "7", "x"] :=
    ⟨"tracker", "update", ["7", "x"], rfl,
      Or.inr (Or.inl ⟨Or.inl rfl, "7", ["x"], 7, rfl, by decide, h7⟩)⟩
  ⟨he, (error_line_no_persist id oneTask _ ⟨200⟩ oneTask.encode he).1,
    (error_line_no_persist id oneTask _ ⟨200⟩ oneTask.encode he).2.2.1⟩

/-- C13 does not hold of the code: with a wrong number of arguments every
command writes its error message to standard output (`fmt.Println`), and
nothing to standard error.  Shown for `add`, `update`, `delete`, `mark-done`,
`mark-in-progress` and `list`. -/
theorem arg_count_errors_on_stdout :
    (dispatch id oneTask ["tracker", "add"] ⟨200⟩ oneTask.encode).out
      = [.stdout "Error: add needs a description, no less no more.\n"] ∧
    (dispatch id oneTask ["tracker", "update", "1"] ⟨200⟩ oneTask.encode).out
      = [.stdout "Error: update requires task ID and description\n"] ∧
    (dispatch id oneTask ["tracker", "delete"] ⟨200⟩ oneTask.encode).out
      = [.stdout "Error: delete requires task ID\n"] ∧
    (dispatch id oneTask ["tracker", "mark-done"] ⟨200⟩ oneTask.encode).out
      = [.stdout "Error: updating task status requires the task's ID\n"] ∧
    (dispatch id oneTask ["tracker", "mark-in-progress"] ⟨200⟩ oneTask.encode).out
      = [.stdout "Error: updating task status requires the task's ID\n"] ∧
    (dispatch id oneTask ["tracker", "list", "todo", "done"] ⟨200⟩ oneTask.encode).out
      = [.stdout "Error: list takes one or no argument\n"] := by
  decide

/-- C14 does not hold of the code: run with no argument after the program name,
`Track` evaluates `os.Args[1]` out of range and the runtime panics, whatever
the file holds. -/
theorem no_arguments_panics :
    (Track id ["tracker"] ⟨200⟩ (some oneTask.encode)).panic = some "index out of range" ∧
    (Track id ["tracker"] ⟨200⟩ none).panic = some "index out of range" := by
  decide

/-- C15 (as the code has it): loading an absent `db.json`, an empty one, one
that holds only white space, or one that holds the JSON value `null`, gives no
error and the store with an empty map and counter zero, and `Track` goes on to
the `switch` with that store.  On content for which
the decoder returns an error, the load returns that error, with the store
holding what the decoder had stored by then; `Track` then writes the error to
standard error and returns before the `switch`: whatever the arguments (none at
all included), no handler runs, nothing else is written, `encode` is not called
and the file is untouched. -/
theorem load_absent_empty_malformed (lower : String → String) :
    tasks.initializeTasks { NextID := 0, Db := ∅ } none
      = (none, { NextID := 0, Db := ∅ }, FileContent.empty) ∧
    tasks.initializeTasks { NextID := 0, Db := ∅ } (some FileContent.empty)
      = (none, { NextID := 0, Db := ∅ }, FileContent.empty) ∧
    tasks.initializeTasks { NextID := 0, Db := ∅ } (some FileContent.blank)
      = (none, { NextID := 0, Db := ∅ }, FileContent.blank) ∧
    tasks.initializeTasks { NextID := 0, Db := ∅ } (some FileContent.null)
      = (none, { NextID := 0, Db := ∅ }, FileContent.null) ∧
    (∀ (args : List String) (now : Time),
      Track lower args now none
        = dispatch lower { NextID := 0, Db := ∅ } args now FileContent.empty ∧
      Track lower args now (some FileContent.empty)
        = dispatch lower { NextID := 0, Db := ∅ } args now FileContent.empty ∧
      Track lower args now (some FileContent.blank)
        = dispatch lower { NextID := 0, Db := ∅ } args now FileContent.blank ∧
      Track lower args now (some FileContent.null)
        = dispatch lower { NextID := 0, Db := ∅ } args now FileContent.null) ∧
    (∀ (text : String) (n : Option Int) (es : List (Int × task)),
      tasks.initializeTasks { NextID := 0, Db := ∅ } (some (FileContent.malformed text n es))
        = (some (Error.decode text),
            { NextID := n.getD 0,
              Db := es.foldl (fun m e => m.insert e.1 e.2) (∅ : TaskMap) },
            FileContent.malformed text n es) ∧
      ∀ (args : List String) (now : Time),
        Track lower args now (some (FileContent.malformed text n es))
          = { t := { NextID := n.getD 0,
                     Db := es.foldl (fun m e => m.insert e.1 e.2) (∅ : TaskMap) },
              file := FileContent.malformed text n es,
              out := [Output.stderrError (Error.decode text)],
              encodes := 0, panic := none }) := by
  exact ⟨Loads_none, Loads_empty, rfl, rfl, fun _ _ => ⟨rfl, rfl, rfl, rfl⟩,
    fun _ _ _ => ⟨rfl, fun _ _ => rfl⟩⟩

/-- C15, where the claim fails: a `db.json` that holds only white space is not
empty and is not the encoding of a store, yet the load returns no error and
the empty store, and `Track` goes on to run the command: here `add` stores its
task and rewrites the file. -/
theorem blank_file_loads :
    FileContent.blank ≠ FileContent.empty ∧
    FileContent.blank ≠ tasks.encode { NextID := 0, Db := ∅ } ∧
    tasks.initializeTasks { NextID := 0, Db := ∅ } (some FileContent.blank)
      = (none, { NextID := 0, Db := ∅ }, FileContent.blank) ∧
    (Track id ["tracker", "add", "buy milk"] ⟨100⟩ (some FileContent.blank)).out
      = [.stdout "Task added, and its identity: 1\n"] ∧
    (Track id ["tracker", "add", "buy milk"] ⟨100⟩ (some FileContent.blank)).file
      = oneTask.encode := by
  decide

/-- C16 (as the code has it): `list`, with any arguments, leaves the store in
memory as it was, never calls `encode` and does not touch the content of the
file.  As a whole invocation it leaves an existing `db.json` with the content
it had; an absent one has been created, empty, by the load. -/
theorem list_read_only (lower : String → String) (t : tasks) (prog cmd : String)
    (rest : List String) (now : Time) (file : FileContent) (hcmd : lower cmd = "list") :
    (dispatch lower t (prog :: cmd :: rest) now file).t = t ∧
    (dispatch lower t (prog :: cmd :: rest) now file).encodes = 0 ∧
    (dispatch lower t (prog :: cmd :: rest) now file).file = file ∧
    (∀ disk, Loads disk t →
      (Track lower (prog :: cmd :: rest) now disk).t = t ∧
      (Track lower (prog :: cmd :: rest) now disk).encodes = 0 ∧
      (Track lower (prog :: cmd :: rest) now disk).file = disk.getD FileContent.empty) := by
  have h : ∀ file, (dispatch lower t (prog :: cmd :: rest) now file).t = t ∧
      (dispatch lower t (prog :: cmd :: rest) now file).encodes = 0 ∧
      (dispatch lower t (prog :: cmd :: rest) now file).file = file := by
    intro file
    rw [dispatch_list lower t prog cmd rest now file hcmd]
    exact ⟨(list_effect _ _ _).2.1, (list_effect _ _ _).1, (list_effect _ _ _).2.2⟩
  refine ⟨(h file).1, (h file).2.1, (h file).2.2, ?_⟩
  intro disk hd
  rw [Track_of_Loads lower _ now disk t hd]
  exact h _

theorem list_read_only_witness :
    id "list" = "list" ∧ Loads (some oneTask.encode) oneTask ∧
    (Track id ["tracker", "list", "todo"] ⟨200⟩ (some oneTask.encode)).encodes = 0 ∧
    (Track id ["tracker", "list", "todo"] ⟨200⟩ (some oneTask.encode)).file = oneTask.encode :=
  ⟨rfl, Loads_encode _,
    ((list_read_only id oneTask "tracker" "list" ["todo"] ⟨200⟩ oneTask.encode rfl).2.2.2
      (some oneTask.encode) (Loads_encode _)).2.1,
    ((list_read_only id oneTask "tracker" "list" ["todo"] ⟨200⟩ oneTask.encode rfl).2.2.2
      (some oneTask.encode) (Loads_encode _)).2.2⟩

/-- C16 fails as stated: run where `db.json` is absent, `list` does not call
`encode`, yet afterwards the file exists (with zero bytes): the disk is not as
it was. -/
theorem list_creates_absent_file :
    Loads none { NextID := 0, Db := ∅ } ∧
    (Track id ["tracker", "list"] ⟨200⟩ none).encodes = 0 ∧
    (Track id ["tracker", "list"] ⟨200⟩ none).file = FileContent.empty ∧
    (none : Option FileContent) ≠ some (Track id ["tracker", "list"] ⟨200⟩ none).file := by
  decide

/-- C17: in every store reachable from the empty store every key of the map
is the `ID` of the task stored under it; and every command (any argument
vector, so `add`, `update`, `delete`, the mark commands and `list`) preserves
that property of a store. -/
theorem keys_are_ids (lower : String → String) :
    (∀ t, Reachable lower t → t.KeysAreIDs) ∧
    (∀ (t : tasks) (args : List String) (now : Time) (file : FileContent),
      t.KeysAreIDs → (dispatch lower t args now file).t.KeysAreIDs) := by
  have hstep : ∀ (t : tasks) (args : List String) (now : Time) (file : FileContent),
      t.KeysAreIDs → (dispatch lower t args now file).t.KeysAreIDs := by
    intro t args now file hinv k x1 hx1
    rcases dispatch_lookup lower t args now file k x1 hx1 with ⟨x, hx, hid, _⟩ | ⟨_, _, hid, _⟩
    · rw [hid]; exact hinv k x hx
    · exact hid
  refine ⟨fun t ht => Reachable_induction lower _ ?_ hstep t ht, hstep⟩
  intro k x hx
  simp [Finmap.lookup_empty] at hx

theorem keys_are_ids_witness : Reachable id oneTask ∧ oneTask.KeysAreIDs :=
  ⟨oneTask_Reachable, (keys_are_ids id).1 oneTask oneTask_Reachable⟩

/-- C18: in every store reachable from the empty store, by commands with any
arguments, the status of every task is `todo`, `in-progress` or `done`. -/
theorem status_invariant (lower : String → String) (t : tasks) (h : Reachable lower t) :
    ∀ k x, t.Db.lookup k = some x →
      x.Status = "todo" ∨ x.Status = "in-progress" ∨ x.Status = "done" := by
  refine Reachable_induction lower
    (fun t => ∀ k x, t.Db.lookup k = some x →
      x.Status = "todo" ∨ x.Status = "in-progress" ∨ x.Status = "done") ?_ ?_ t h
  · intro k x hx
    simp [Finmap.lookup_empty] at hx
  · intro t args now file hinv k x1 hx1
    rcases dispatch_lookup lower t args now file k x1 hx1 with ⟨x, hx, _, hs⟩ | ⟨_, _, _, hs⟩
    · rcases hs with hs | hs | hs
      · rw [hs]; exact hinv k x hx
      · exact Or.inr (Or.inl hs)
      · exact Or.inr (Or.inr hs)
    · exact Or.inl hs

theorem status_invariant_witness :
    Reachable id oneTask ∧
    ∀ k x, oneTask.Db.lookup k = some x →
      x.Status = "todo" ∨ x.Status = "in-progress" ∨ x.Status = "done" :=
  ⟨oneTask_Reachable, status_invariant id oneTask oneTask_Reachable⟩

/-- C19: leaving overflow aside (the session from the empty store has fewer
than `2 ^ 63` invocations; the counter a command starts from is below the
largest `int`), in every store reached from the empty store the counter is not
negative and every key lies between 1 and the counter; and a command never
lowers the counter: an `add` that goes through raises it by exactly one, every
other invocation leaves it as it was. -/
theorem counter_bounds (lower : String → String) :
    (∀ (disk : Option FileContent) (invs : List (List String × Time)) (t : tasks),
      Loads disk { NextID := 0, Db := ∅ } → invs.length < 2 ^ 63 →
      Loads (sessionDisk lower disk invs) t →
        0 ≤ t.NextID ∧ ∀ k, k ∈ t.Db → 1 ≤ k ∧ k ≤ t.NextID) ∧
    (∀ (t : tasks) (args : List String) (now : Time) (file : FileContent),
      minInt ≤ t.NextID → t.NextID < maxInt →
      t.NextID ≤ (dispatch lower t args now file).t.NextID ∧
      (isAddLine lower args = true →
        (dispatch lower t args now file).encodes = 1 ∧
        (dispatch lower t args now file).t.NextID = t.NextID + 1) ∧
      (isAddLine lower args = false →
        (dispatch lower t args now file).t.NextID = t.NextID)) := by
  constructor
  · intro disk invs t hd hn ht
    have hmax : (0 : Int) + invs.length ≤ maxInt := by unfold maxInt; omega
    obtain ⟨h1, h2, _⟩ := session_counter_bounds lower invs disk _ hd (le_refl _)
      (fun k hk => absurd hk Finmap.not_mem_empty) hmax t ht
    exact ⟨h1, h2⟩
  · intro t args now file hmin hmax
    have hw := wrapInt_succ t.NextID hmin hmax
    refine ⟨(dispatch_NextID_le lower t args now file hmin hmax).1, ?_, ?_⟩
    · intro hi
      rcases dispatch_effect lower t args now file with h | h | h
      · rw [h.2.2.2] at hi; cases hi
      · rw [h.2.2.2] at hi; cases hi
      · exact ⟨h.1, by rw [h.2.2.1, hw]⟩
    · intro hn
      rcases dispatch_effect lower t args now file with h | h | h
      · rw [h.2.1]
      · exact h.2.2.1
      · rw [h.2.2.2] at hn; cases hn

theorem counter_bounds_witness :
    Loads none { NextID := 0, Db := ∅ } ∧
    [(["tracker", "add", "buy milk"], (⟨100⟩ : Time))].length < 2 ^ 63 ∧
    Loads (sessionDisk id none [(["tracker", "add", "buy milk"], ⟨100⟩)]) oneTask ∧
    (0 ≤ oneTask.NextID ∧ ∀ k, k ∈ oneTask.Db → 1 ≤ k ∧ k ≤ oneTask.NextID) ∧
    minInt ≤ oneTask.NextID ∧ oneTask.NextID < maxInt ∧
    isAddLine id ["tracker", "add", "walk dog"] = true ∧
    (dispatch id oneTask ["tracker", "add", "walk dog"] ⟨200⟩ oneTask.encode).t.NextID
      = oneTask.NextID + 1 :=
  ⟨Loads_none, by decide, by decide,
    (counter_bounds id).1 none [(["tracker", "add", "buy milk"], ⟨100⟩)] oneTask Loads_none
      (by decide) (by decide),
    by decide, by decide, by decide,
    (((counter_bounds id).2 oneTask ["tracker", "add", "walk dog"] ⟨200⟩ oneTask.encode
      (by decide) (by decide)).2.1 (by decide)).2⟩

/-- C20 (as the code has it): starting from a store none of whose keys exceeds
its counter (every store the program builds from an empty file is such), through
any sequence of invocations short enough for the `int` counter not to wrap,
once the task under an ID has a status other than `todo`, the task under that
ID does not have status `todo` in any later store; and a single command, run on
such a store with the counter below the largest `int`, leaves the status of the
task under an existing ID as it was or makes it `in-progress` or `done`. -/
theorem never_back_to_todo (lower : String → String) (disk : Option FileContent) (t0 : tasks)
    (invs : List (List String × Time)) (hd : Loads disk t0) (hb : t0.KeysWithinCounter)
    (hmin : minInt ≤ t0.NextID) (hmax : t0.NextID + invs.length ≤ maxInt) :
    ((t0 :: (session lower disk invs).map Run.t).Pairwise fun earlier later =>
      ∀ k x x1, earlier.Db.lookup k = some x → x.Status ≠ "todo" →
        later.Db.lookup k = some x1 → x1.Status ≠ "todo") ∧
    (t0.NextID < maxInt →
      ∀ (args : List String) (now : Time) (file : FileContent) (k : Int) (x x1 : task),
        t0.Db.lookup k = some x → (dispatch lower t0 args now file).t.Db.lookup k = some x1 →
          x1.Status = x.Status ∨ x1.Status = "in-progress" ∨ x1.Status = "done") := by
  refine ⟨session_never_todo lower invs disk t0 hd hb hmin hmax, ?_⟩
  intro hlt args now file k x x1 hx hx1
  obtain ⟨y, hy, hs⟩ := (Succeeds_step lower t0 args now file hmin hlt).2 k
    (hb k (Finmap.mem_iff.mpr ⟨x, hx⟩)) x1 hx1
  rw [hx] at hy
  cases hy
  exact hs

theorem never_back_to_todo_witness :
    Loads (some oneTask.encode) oneTask ∧ oneTask.KeysWithinCounter ∧
    minInt ≤ oneTask.NextID ∧
    oneTask.NextID +
      ([(["tracker", "mark-done", "1"], (⟨200⟩ : Time)),
        (["tracker", "add", "walk dog"], ⟨300⟩)].length : Int) ≤ maxInt ∧
    (session id (some oneTask.encode)
        [(["tracker", "mark-done", "1"], ⟨200⟩),
         (["tracker", "add", "walk dog"], ⟨300⟩)]).map (fun r => r.t.Db.lookup 1)
      = [some { ID := 1, Description := "buy milk", Status := "done",
                CreatedAt := ⟨100⟩, UpdatedAt := ⟨200⟩ },
         some { ID := 1, Description := "buy milk", Status := "done",
                CreatedAt := ⟨100⟩, UpdatedAt := ⟨200⟩ }] ∧
    ((oneTask :: (session id (some oneTask.encode)
        [(["tracker", "mark-done", "1"], ⟨200⟩),
         (["tracker", "add", "walk dog"], ⟨300⟩)]).map Run.t).Pairwise fun earlier later =>
      ∀ k x x1, earlier.Db.lookup k = some x → x.Status ≠ "todo" →
        later.Db.lookup k = some x1 → x1.Status ≠ "todo") :=
  ⟨Loads_encode _, oneTask_KeysWithinCounter, by decide, by decide, by decide,
    (never_back_to_todo id (some oneTask.encode) oneTask
      [(["tracker", "mark-done", "1"], ⟨200⟩), (["tracker", "add", "walk dog"], ⟨300⟩)]
      (Loads_encode _) oneTask_KeysWithinCounter (by decide) (by decide)).1⟩

/-- C20, where the claim fails: in a store whose counter lags behind its keys
(it loads from a `db.json` that says so), the task under ID 1 is `done`; `add`
then stores its new task under ID 1, and the task under ID 1 is `todo` again.
The same happens in a store whose counter is the largest `int` and which holds
a `done` task under the smallest `int`: the counter wraps to that key. -/
theorem add_overwrites_done_task :
    Loads (some staleCounter.encode) staleCounter ∧
    staleCounter.Db.lookup 1
      = some { ID := 1, Description := "buy milk", Status := "done",
               CreatedAt := ⟨100⟩, UpdatedAt := ⟨150⟩ } ∧
    (Track id ["tracker", "add", "walk dog"] ⟨200⟩ (some staleCounter.encode)).t.Db.lookup 1
      = some { ID := 1, Description := "walk dog", Status := "todo",
               CreatedAt := ⟨200⟩, UpdatedAt := Time.zero } ∧
    Loads (some wrapsOnto.encode) wrapsOnto ∧
    (wrapsOnto.Db.lookup (-9223372036854775808)).map task.Status = some "done" ∧
    ((Track id ["tracker", "add", "walk dog"] ⟨200⟩
        (some wrapsOnto.encode)).t.Db.lookup (-9223372036854775808)).map task.Status
      = some "todo" := by
  decide

end Tracker
